import Mathlib

/-!
Verification of the open-storage bucket/index core.

The bucket content store (`Files`, `PendingFile`, reference counts, accessor
index, blob store) is embedded from
`src/backend/canisters/bucket/impl/src/model/files.rs`; the index quota
engine (`IndexData`, `allocated_bucket_impl`, `add_user_impl`) from
`src/backend/canisters/index/impl/src/lib.rs`,
`.../queries/allocated_bucket.rs` and `.../updates/add_user.rs`.

Rust `HashMap`s are embedded as association lists (`List (Nat × α)`) with
lookup/insert/update/erase helpers; `HashSet`s as `List Nat` manipulated
with set-like insert/remove; `ByteBuf` as `List Nat`; all identifier types
(`UserId`, `FileId`, `AccessorId`, `Hash`, timestamps) as `Nat`.  The
content hash function `utils::hasher::hash_bytes` is an external
collaborator and is passed as an explicit parameter `hashFn`, as is the
tunable `MAX_BLOB_SIZE_BYTES`.
-/

namespace OpenStorage

/-! ## Association-list maps (embedding of `HashMap`) -/

def alookup {α : Type} (k : Nat) : List (Nat × α) → Option α
  | [] => none
  | p :: rest => if p.1 = k then some p.2 else alookup k rest

def aerase {α : Type} (k : Nat) : List (Nat × α) → List (Nat × α)
  | [] => []
  | p :: rest => if p.1 = k then aerase k rest else p :: aerase k rest

def ainsert {α : Type} (k : Nat) (v : α) (m : List (Nat × α)) : List (Nat × α) :=
  (k, v) :: aerase k m

def aupdate {α : Type} (k : Nat) (v : α) : List (Nat × α) → List (Nat × α)
  | [] => []
  | p :: rest => if p.1 = k then (k, v) :: aupdate k v rest else p :: aupdate k v rest

def NodupKeys {α : Type} (m : List (Nat × α)) : Prop := (m.map Prod.fst).Nodup

/-! ## Set-like operations on `List Nat` (embedding of `HashSet`) -/

def sinsert (x : Nat) (s : List Nat) : List Nat :=
  if x ∈ s then s else s ++ [x]

def sremove (x : Nat) (s : List Nat) : List Nat :=
  s.filter (fun y => decide (y ≠ x))

/-! ## Bucket-side data model (`files.rs`) -/

structure File where
  uploaded_by : Nat
  created : Nat
  accessors : List Nat
  hash : Nat
  mime_type : String
deriving DecidableEq, Repr

structure PendingFile where
  uploaded_by : Nat
  created : Nat
  hash : Nat
  mime_type : String
  accessors : List Nat
  chunk_size : Nat
  total_size : Nat
  remaining_chunks : List Nat
  bytes : List Nat
deriving DecidableEq, Repr

structure Files where
  files : List (Nat × File)
  pending_files : List (Nat × PendingFile)
  reference_counts : List (Nat × Nat)
  accessors_map : List (Nat × List Nat)
  blobs : List (Nat × List Nat)
  bytes_used : Nat
deriving DecidableEq, Repr

def Files.empty : Files :=
  { files := [], pending_files := [], reference_counts := [], accessors_map := [],
    blobs := [], bytes_used := 0 }

structure FileAdded where
  uploaded_by : Nat
  file_id : Nat
  hash : Nat
  size : Nat
deriving DecidableEq, Repr

structure FileRemoved where
  file_id : Nat
  uploaded_by : Nat
  hash : Nat
  blob_deleted : Bool
deriving DecidableEq, Repr

inductive AddChunkResult where
  | Success
  | ChunkAlreadyExists
  | ChunkIndexTooHigh
  | ChunkSizeMismatch (expected_size actual_size : Nat)
deriving DecidableEq, Repr

inductive PutChunkResult where
  | Success (file_completed : Bool) (file_added : Option FileAdded)
  | FileAlreadyExists
  | FileTooBig (max_size : Nat)
  | ChunkAlreadyExists
  | ChunkIndexTooHigh
  | ChunkSizeMismatch (expected_size actual_size : Nat)
  | HashMismatch (provided_hash actual_hash chunk_count : Nat)
deriving DecidableEq, Repr

inductive RemoveFileResult where
  | Success (fr : FileRemoved)
  | NotAuthorized
  | NotFound
deriving DecidableEq, Repr

structure PutChunkArgs where
  uploaded_by : Nat
  file_id : Nat
  hash : Nat
  mime_type : String
  accessors : List Nat
  chunk_index : Nat
  chunk_size : Nat
  total_size : Nat
  bytes : List Nat
  now : Nat
deriving DecidableEq, Repr

/-- Modelled from the spec: `calc_chunk_count` lives in the bucket crate's
`lib.rs`, which is not part of the provided sources.  The spec (§3 inv. 7,
§4.1 step 3) defines it as `chunk_count = ⌈total_size / chunk_size⌉`. -/
def calc_chunk_count (chunk_size total_size : Nat) : Nat :=
  (total_size + chunk_size - 1) / chunk_size

def PendingFile.chunk_count (pf : PendingFile) : Nat :=
  calc_chunk_count pf.chunk_size pf.total_size

def PendingFile.is_completed (pf : PendingFile) : Bool :=
  pf.remaining_chunks.isEmpty

def PendingFile.expected_chunk_size (pf : PendingFile) (chunk_index : Nat) : Option Nat :=
  let last_index := pf.chunk_count - 1
  if chunk_index = last_index then some ((pf.total_size - 1) % pf.chunk_size + 1)
  else if chunk_index < last_index then some pf.chunk_size
  else none

/-- Byte-by-byte copy loop of `PendingFile::add_chunk`:
`for (index, byte) in bytes.into_iter().enumerate() { self.bytes[start + index] = byte }`. -/
def writeBytes (buf : List Nat) (start : Nat) : List Nat → List Nat
  | [] => buf
  | b :: rest => writeBytes (buf.set start b) (start + 1) rest

/-- `PendingFile::add_chunk`.  Note that the source removes `chunk_index`
from `remaining_chunks` before validating the index and the chunk size, and
early-returns without restoring it on failure. -/
def PendingFile.add_chunk (pf : PendingFile) (chunk_index : Nat) (bytes : List Nat) :
    AddChunkResult × PendingFile :=
  if chunk_index ∈ pf.remaining_chunks then
    let pf1 := { pf with remaining_chunks := sremove chunk_index pf.remaining_chunks }
    match pf1.expected_chunk_size chunk_index with
    | some expected =>
      if expected = bytes.length then
        (AddChunkResult.Success,
         { pf1 with bytes := writeBytes pf1.bytes (pf1.chunk_size * chunk_index) bytes })
      else
        (AddChunkResult.ChunkSizeMismatch expected bytes.length, pf1)
    | none => (AddChunkResult.ChunkIndexTooHigh, pf1)
  else
    (AddChunkResult.ChunkAlreadyExists, pf)

/-- `impl From<PutChunkArgs> for PendingFile`: builds the zeroed buffer and
absorbs the first chunk, discarding the `add_chunk` result. -/
def pendingFileFromArgs (args : PutChunkArgs) : PendingFile :=
  let chunk_count := calc_chunk_count args.chunk_size args.total_size
  let pf : PendingFile :=
    { uploaded_by := args.uploaded_by
      created := args.now
      hash := args.hash
      mime_type := args.mime_type
      accessors := args.accessors.foldl (fun s a => sinsert a s) []
      chunk_size := args.chunk_size
      total_size := args.total_size
      remaining_chunks := List.range chunk_count
      bytes := List.replicate args.total_size 0 }
  (pf.add_chunk args.chunk_index args.bytes).2

/-! ### `ReferenceCounts` and `AccessorsMap` -/

def rcIncr (h : Nat) (m : List (Nat × Nat)) : Nat × List (Nat × Nat) :=
  match alookup h m with
  | some c => (c + 1, aupdate h (c + 1) m)
  | none => (1, ainsert h 1 m)

def rcDecr (h : Nat) (m : List (Nat × Nat)) : Nat × List (Nat × Nat) :=
  match alookup h m with
  | some c => if 1 < c then (c - 1, aupdate h (c - 1) m) else (0, aerase h m)
  | none => (0, m)

def amLink (accessor_id file_id : Nat) (m : List (Nat × List Nat)) : List (Nat × List Nat) :=
  match alookup accessor_id m with
  | some s => aupdate accessor_id (sinsert file_id s) m
  | none => ainsert accessor_id (sinsert file_id []) m

def amUnlink (accessor_id file_id : Nat) (m : List (Nat × List Nat)) : List (Nat × List Nat) :=
  match alookup accessor_id m with
  | some s =>
    let s1 := sremove file_id s
    if s1.isEmpty then aerase accessor_id m else aupdate accessor_id s1 m
  | none => m

/-! ### `Files` operations -/

def Files.get (s : Files) (file_id : Nat) : Option File :=
  alookup file_id s.files

def Files.pending_file (s : Files) (file_id : Nat) : Option PendingFile :=
  alookup file_id s.pending_files

def Files.blob_bytes (s : Files) (h : Nat) : Option (List Nat) :=
  alookup h s.blobs

def Files.contains_hash (s : Files) (h : Nat) : Bool :=
  (alookup h s.blobs).isSome

def Files.add_blob_if_not_exists (s : Files) (h : Nat) (bytes : List Nat) : Files :=
  match alookup h s.blobs with
  | some _ => s
  | none => { s with blobs := ainsert h bytes s.blobs, bytes_used := s.bytes_used + bytes.length }

def Files.remove_blob (s : Files) (h : Nat) : Files :=
  match alookup h s.blobs with
  | some bytes => { s with blobs := aerase h s.blobs, bytes_used := s.bytes_used - bytes.length }
  | none => s

def Files.insert_completed_file (s : Files) (file_id : Nat) (cf : PendingFile) (now : Nat) : Files :=
  let s1 := { s with accessors_map := (cf.accessors.foldl (fun m a => amLink a file_id m) s.accessors_map) }
  let s2 := { s1 with
    files := (ainsert file_id
      ({ uploaded_by := cf.uploaded_by, created := now, accessors := cf.accessors,
         hash := cf.hash, mime_type := cf.mime_type }) s1.files) }
  let s3 := { s2 with reference_counts := (rcIncr cf.hash s2.reference_counts).2 }
  s3.add_blob_if_not_exists cf.hash cf.bytes

/-- Completion tail of `Files::put_chunk`: verify the assembled bytes against
the declared hash, then install the completed file.  On the occupied path the
caller has already removed the pending entry (`e.remove()`), so a
`HashMismatch` leaves it dropped. -/
def Files.complete_pending (hashFn : List Nat → Nat) (s : Files) (file_id now : Nat)
    (cf : PendingFile) (file_added : Option FileAdded) : PutChunkResult × Files :=
  let h := hashFn cf.bytes
  if h = cf.hash then
    (PutChunkResult.Success true file_added, s.insert_completed_file file_id cf now)
  else
    (PutChunkResult.HashMismatch cf.hash h cf.chunk_count, s)

/-- `Files::put_chunk`.  `hashFn` embeds `utils::hasher::hash_bytes` and
`maxBlobSize` the constant `MAX_BLOB_SIZE_BYTES` (both live outside the
provided sources). -/
def Files.put_chunk (hashFn : List Nat → Nat) (maxBlobSize : Nat) (s : Files)
    (args : PutChunkArgs) : PutChunkResult × Files :=
  if maxBlobSize < args.total_size then
    (PutChunkResult.FileTooBig maxBlobSize, s)
  else if (alookup args.file_id s.files).isSome then
    (PutChunkResult.FileAlreadyExists, s)
  else
    match alookup args.file_id s.pending_files with
    | none =>
      let file_added := some
        { uploaded_by := args.uploaded_by, file_id := args.file_id,
          hash := args.hash, size := args.total_size : FileAdded }
      let pf := pendingFileFromArgs args
      if pf.is_completed then
        Files.complete_pending hashFn s args.file_id args.now pf file_added
      else
        (PutChunkResult.Success false file_added,
         { s with pending_files := ainsert args.file_id pf s.pending_files })
    | some pf0 =>
      match pf0.add_chunk args.chunk_index args.bytes with
      | (AddChunkResult.Success, pf1) =>
        if pf1.is_completed then
          Files.complete_pending hashFn
            { s with pending_files := aerase args.file_id s.pending_files }
            args.file_id args.now pf1 none
        else
          (PutChunkResult.Success false none,
           { s with pending_files := aupdate args.file_id pf1 s.pending_files })
      | (AddChunkResult.ChunkAlreadyExists, _) =>
        (PutChunkResult.ChunkAlreadyExists, s)
      | (AddChunkResult.ChunkIndexTooHigh, pf1) =>
        (PutChunkResult.ChunkIndexTooHigh,
         { s with pending_files := aupdate args.file_id pf1 s.pending_files })
      | (AddChunkResult.ChunkSizeMismatch e a, pf1) =>
        (PutChunkResult.ChunkSizeMismatch e a,
         { s with pending_files := aupdate args.file_id pf1 s.pending_files })

def Files.remove (s : Files) (uploaded_by file_id : Nat) : RemoveFileResult × Files :=
  match alookup file_id s.files with
  | none => (RemoveFileResult.NotFound, s)
  | some f =>
    if f.uploaded_by = uploaded_by then
      let s1 := { s with
        files := aerase file_id s.files,
        accessors_map := f.accessors.foldl (fun m a => amUnlink a file_id m) s.accessors_map }
      let dec := rcDecr f.hash s1.reference_counts
      let s2 := { s1 with reference_counts := dec.2 }
      if dec.1 = 0 then
        (RemoveFileResult.Success
          { file_id := file_id, uploaded_by := uploaded_by, hash := f.hash, blob_deleted := true },
         s2.remove_blob f.hash)
      else
        (RemoveFileResult.Success
          { file_id := file_id, uploaded_by := uploaded_by, hash := f.hash, blob_deleted := false },
         s2)
    else
      (RemoveFileResult.NotAuthorized, s)

def Files.remove_pending_file (s : Files) (file_id : Nat) : Bool × Files :=
  ((alookup file_id s.pending_files).isSome,
   { s with pending_files := aerase file_id s.pending_files })

/-- Loop body of `Files::remove_accessor`. -/
def raStep (a : Nat) (acc : List FileRemoved × Files) (file_id : Nat) :
    List FileRemoved × Files :=
  let s := acc.2
  match alookup file_id s.files with
  | none => acc
  | some f =>
    let accessors1 := sremove a f.accessors
    if accessors1.isEmpty then
      let dec := rcDecr f.hash s.reference_counts
      let s1 := { s with files := aerase file_id s.files, reference_counts := dec.2 }
      let s2 := if dec.1 = 0 then s1.remove_blob f.hash else s1
      (acc.1 ++ [{ file_id := file_id, uploaded_by := f.uploaded_by, hash := f.hash,
                   blob_deleted := decide (dec.1 = 0) }], s2)
    else
      (acc.1, { s with files := aupdate file_id ({ f with accessors := accessors1 }) s.files })

def Files.remove_accessor (s : Files) (a : Nat) : List FileRemoved × Files :=
  match alookup a s.accessors_map with
  | none => ([], s)
  | some fids =>
    fids.foldl (raStep a) ([], { s with accessors_map := aerase a s.accessors_map })

/-! ## Index-side data model (`index/impl/src/lib.rs` and friends) -/

structure UserRecord where
  byte_limit : Nat
  bytes_used : Nat
deriving DecidableEq, Repr

/-- Modelled from the spec: the `BlobBuckets` source file
(`index/impl/src/model/blob_buckets.rs`) is not among the provided sources.
Per §3 it maps `Hash → { size, bucket }`; `add` records the entry, `remove`
deletes the entry for the given bucket and returns its size, `get` reads it. -/
structure BlobBucketRecord where
  size : Nat
  bucket : Nat
deriving DecidableEq, Repr

def bbAdd (h size bucket : Nat) (m : List (Nat × BlobBucketRecord)) :
    List (Nat × BlobBucketRecord) :=
  ainsert h { size := size, bucket := bucket } m

def bbRemove (h bucket : Nat) (m : List (Nat × BlobBucketRecord)) :
    Option Nat × List (Nat × BlobBucketRecord) :=
  match alookup h m with
  | some r => if r.bucket = bucket then (some r.size, aerase h m) else (none, m)
  | none => (none, m)

def bbGet (h : Nat) (m : List (Nat × BlobBucketRecord)) : Option BlobBucketRecord :=
  alookup h m

/-- Modelled from the spec: `Buckets::sync_event` (in the missing
`index/impl/src/model/buckets.rs`) enqueues an event on every bucket's
outbound FIFO; the queues are flattened into one event list here. -/
inductive EventToSync where
  | UserAdded (user_id : Nat)
  | UserRemoved (user_id : Nat)
  | AccessorRemoved (accessor_id : Nat)
deriving DecidableEq, Repr

structure IndexData where
  users : List (Nat × UserRecord)
  blob_buckets : List (Nat × BlobBucketRecord)
  sync_events : List EventToSync
deriving DecidableEq, Repr

structure BlobReferenceAdded where
  uploaded_by : Nat
  blob_id : Nat
  blob_hash : Nat
  blob_size : Nat
deriving DecidableEq, Repr

structure BlobReferenceRemoved where
  uploaded_by : Nat
  blob_hash : Nat
  blob_deleted : Bool
deriving DecidableEq, Repr

inductive BlobReferenceRejectedReason where
  | AllowanceReached
  | UserNotFound
deriving DecidableEq, Repr

/-- `Data::add_blob_reference`: an `Err(BlobReferenceRejected)` is embedded
as `some (blob_id, reason)` in the first component. -/
def IndexData.add_blob_reference (d : IndexData) (bucket : Nat) (ev : BlobReferenceAdded) :
    Option (Nat × BlobReferenceRejectedReason) × IndexData :=
  match alookup ev.uploaded_by d.users with
  | some user =>
    if user.byte_limit < user.bytes_used + ev.blob_size then
      (some (ev.blob_id, BlobReferenceRejectedReason.AllowanceReached), d)
    else
      (none,
       { d with
         users := (aupdate ev.uploaded_by
           ({ user with bytes_used := user.bytes_used + ev.blob_size }) d.users),
         blob_buckets := bbAdd ev.blob_hash ev.blob_size bucket d.blob_buckets })
  | none => (some (ev.blob_id, BlobReferenceRejectedReason.UserNotFound), d)

def IndexData.remove_blob_reference (d : IndexData) (bucket : Nat) (ev : BlobReferenceRemoved) :
    IndexData :=
  let res :=
    if ev.blob_deleted then bbRemove ev.blob_hash bucket d.blob_buckets
    else ((bbGet ev.blob_hash d.blob_buckets).map (fun r => r.size), d.blob_buckets)
  let d1 := { d with blob_buckets := res.2 }
  match res.1 with
  | some blob_size =>
    match alookup ev.uploaded_by d1.users with
    | some user =>
      { d1 with users := (aupdate ev.uploaded_by
          ({ user with bytes_used := user.bytes_used - blob_size }) d1.users) }
    | none => d1
  | none => d1

inductive AddUserResponse where
  | Success
  | UserAlreadyExists
deriving DecidableEq, Repr

/-- `add_user_impl` from `index/impl/src/updates/add_user.rs`. -/
def add_user_impl (d : IndexData) (user_id byte_limit : Nat) : AddUserResponse × IndexData :=
  if (alookup user_id d.users).isSome then
    (AddUserResponse.UserAlreadyExists, d)
  else
    (AddUserResponse.Success,
     { d with
       users := ainsert user_id ({ byte_limit := byte_limit, bytes_used := 0 }) d.users,
       sync_events := d.sync_events ++ [EventToSync.UserAdded user_id] })

def DEFAULT_CHUNK_SIZE_BYTES : Nat := 1 <<< 19

structure ProjectedAllowance where
  byte_limit : Nat
  bytes_used : Nat
  bytes_used_after_upload : Nat
  bytes_used_after_operation : Nat
deriving DecidableEq, Repr

inductive AllocatedBucketResponse where
  | Success (canister_id chunk_size : Nat) (projected_allowance : ProjectedAllowance)
  | AllowanceExceeded (projected_allowance : ProjectedAllowance)
  | BucketUnavailable
  | UserNotFound
deriving DecidableEq, Repr

/-- `allocated_bucket_impl` from `index/impl/src/queries/allocated_bucket.rs`.
The helpers `data.blobs.user_owns_blob`, `data.blobs.bucket` and
`data.buckets.allocate` live in index model files that are not among the
provided sources, so they are taken as oracle parameters (modelled from the
spec §4.2: the target bucket is the owner recorded for the hash when present,
otherwise a freshly allocated one). -/
def allocated_bucket_impl (users : List (Nat × UserRecord))
    (user_owns_blob : Nat → Nat → Bool) (bucket_of allocate : Nat → Option Nat)
    (caller file_hash file_size : Nat) : AllocatedBucketResponse :=
  match alookup caller users with
  | some user =>
    let byte_limit := user.byte_limit
    let bytes_used := user.bytes_used
    let bytes_used_after_upload :=
      if user_owns_blob caller file_hash then bytes_used else bytes_used + file_size
    if byte_limit < bytes_used_after_upload then
      AllocatedBucketResponse.AllowanceExceeded
        { byte_limit := byte_limit, bytes_used := bytes_used,
          bytes_used_after_upload := bytes_used_after_upload,
          bytes_used_after_operation := bytes_used_after_upload }
    else
      match bucket_of file_hash with
      | some canister_id =>
        AllocatedBucketResponse.Success canister_id DEFAULT_CHUNK_SIZE_BYTES
          { byte_limit := byte_limit, bytes_used := bytes_used,
            bytes_used_after_upload := bytes_used_after_upload,
            bytes_used_after_operation := bytes_used_after_upload }
      | none =>
        match allocate file_hash with
        | some canister_id =>
          AllocatedBucketResponse.Success canister_id DEFAULT_CHUNK_SIZE_BYTES
            { byte_limit := byte_limit, bytes_used := bytes_used,
              bytes_used_after_upload := bytes_used_after_upload,
              bytes_used_after_operation := bytes_used_after_upload }
        | none => AllocatedBucketResponse.BucketUnavailable
  | none => AllocatedBucketResponse.UserNotFound

/-! ## Derived quantities for the bucket invariants -/

def rcGet (h : Nat) (m : List (Nat × Nat)) : Nat := (alookup h m).getD 0

def countFilesWithHash (h : Nat) (files : List (Nat × File)) : Nat :=
  (files.filter (fun p => decide (p.2.hash = h))).length

def blobsSize (blobs : List (Nat × List Nat)) : Nat :=
  (blobs.map (fun p => p.2.length)).sum

/-- Invariants of a reachable bucket state (C2): the reference count of
every hash equals the number of completed files carrying it, a blob is
stored exactly when that count is positive, `bytes_used` is the total size
of the stored blobs, and no id is both a completed and a pending file.  The
two `NodupKeys` fields record that the embedded `HashMap`s bind each key
once. -/
structure Inv (s : Files) : Prop where
  files_nodup : NodupKeys s.files
  blobs_nodup : NodupKeys s.blobs
  rc_eq : ∀ h, rcGet h s.reference_counts = countFilesWithHash h s.files
  blob_iff : ∀ h, (alookup h s.blobs).isSome ↔ 0 < rcGet h s.reference_counts
  bytes_eq : s.bytes_used = blobsSize s.blobs
  keysets_disjoint : ∀ k, (alookup k s.files).isSome → alookup k s.pending_files = none

/-- The four public mutators of `Files` (C2's reachability alphabet). -/
inductive Op where
  | put (args : PutChunkArgs)
  | removeFile (uploaded_by file_id : Nat)
  | removePending (file_id : Nat)
  | removeAccessor (a : Nat)

def applyOp (hashFn : List Nat → Nat) (maxBlobSize : Nat) (s : Files) : Op → Files
  | Op.put args => (s.put_chunk hashFn maxBlobSize args).2
  | Op.removeFile u fid => (s.remove u fid).2
  | Op.removePending fid => (s.remove_pending_file fid).2
  | Op.removeAccessor a => (s.remove_accessor a).2

def applyOps (hashFn : List Nat → Nat) (maxBlobSize : Nat) (s : Files) (ops : List Op) : Files :=
  ops.foldl (applyOp hashFn maxBlobSize) s

/-! ## Concrete example states used by several claims -/

/-- First chunk of a fresh upload: total_size 3, chunk_size 2, whose chunk 0
carries 2 bytes as required. -/
def uploadArgsA : PutChunkArgs := ⟨1, 1, 99, "", [], 0, 2, 3, [1, 2], 0⟩

/-- State after absorbing `uploadArgsA` from the empty bucket: one pending
file with `remaining_chunks = [1]` and buffer `[1, 2, 0]`. -/
def stateAfterChunk0 : Files :=
  (Files.put_chunk (fun _ => 0) 1000 Files.empty uploadArgsA).2

/-- Does `remove_accessor a` delete file `fid` of state `s`?  True exactly
when the file exists and its accessor set becomes empty once `a` is
removed. -/
def deletedCond (s : Files) (fid a : Nat) : Bool :=
  match alookup fid s.files with
  | some f => (sremove a f.accessors).isEmpty
  | none => false

/-- Spec scenario 4 (C8 witness): F1 (id 1) has accessors {10, 20}, F2
(id 2) has {10}; both share blob hash 7. -/
def c8File1 : File := ⟨100, 0, [10, 20], 7, ""⟩

def c8File2 : File := ⟨200, 0, [10], 7, ""⟩

def c8State : Files :=
  { files := [(1, c8File1), (2, c8File2)],
    pending_files := [],
    reference_counts := [(7, 2)],
    accessors_map := [(10, [1, 2]), (20, [1])],
    blobs := [(7, [5])],
    bytes_used := 1 }

/-! ## C1 scaffolding: chunk partitions and upload runs -/

/-- Expected byte-count of chunk `i` for a file of `T` bytes in chunks of
`c` bytes: `c` for every index but the last, `((T − 1) mod c) + 1` for the
last (mirrors `PendingFile::expected_chunk_size`). -/
def expectedSize (c T i : Nat) : Nat :=
  if i = calc_chunk_count c T - 1 then (T - 1) % c + 1 else c

/-- Concatenation of chunks `0, …, n−1` in index order. -/
def concatUpTo (chunks : Nat → List Nat) : Nat → List Nat
  | 0 => []
  | n + 1 => concatUpTo chunks n ++ chunks n

/-- `remaining_chunks` of a pending upload of `N` chunks after the indices
in `l` have been received. -/
def remChunks (N : Nat) (l : List Nat) : List Nat :=
  (List.range N).filter (fun i => !(l.contains i))

/-- The accessor `HashSet` collected from the argument vector. -/
def accSet (accs : List Nat) : List Nat :=
  accs.foldl (fun s a => sinsert a s) []

/-- The bucket state in the middle of an upload: the base state plus one
pending file. -/
def midState (s₀ : Files) (fid : Nat) (pf : PendingFile) : Files :=
  { s₀ with pending_files := ainsert fid pf s₀.pending_files }

/-- The `upload_chunk` argument for chunk `i` of one fixed upload. -/
def mkUploadArgs (u fid h : Nat) (mt : String) (accs : List Nat) (c T now : Nat)
    (chunks : Nat → List Nat) (i : Nat) : PutChunkArgs :=
  ⟨u, fid, h, mt, accs, i, c, T, chunks i, now⟩

/-- Run a sequence of `put_chunk` calls, collecting the results. -/
def runUpload (hashFn : List Nat → Nat) (maxBlobSize : Nat) :
    Files → List PutChunkArgs → List PutChunkResult × Files
  | s, [] => ([], s)
  | s, args :: rest =>
    let r := s.put_chunk hashFn maxBlobSize args
    let rr := runUpload hashFn maxBlobSize r.2 rest
    (r.1 :: rr.1, rr.2)

def PutChunkResult.isSuccess : PutChunkResult → Bool
  | PutChunkResult.Success _ _ => true
  | _ => false

/-! ## Association-list lemmas -/

theorem alookup_aerase_self {α : Type} (k : Nat) (m : List (Nat × α)) :
    alookup k (aerase k m) = none := by
  induction m with
  | nil => rfl
  | cons p rest ih =>
    by_cases h : p.1 = k
    · simpa [aerase, h] using ih
    · simpa [aerase, alookup, h] using ih

theorem alookup_aerase_ne {α : Type} {k k' : Nat} (h : k ≠ k') (m : List (Nat × α)) :
    alookup k' (aerase k m) = alookup k' m := by
  induction m with
  | nil => rfl
  | cons p rest ih =>
    by_cases hp : p.1 = k
    · simp [aerase, alookup, hp, h, ih]
    · by_cases hq : p.1 = k'
      · simp [aerase, alookup, hp, hq, Ne.symm h]
      · simp [aerase, alookup, hp, hq, ih]

theorem alookup_ainsert_self {α : Type} (k : Nat) (v : α) (m : List (Nat × α)) :
    alookup k (ainsert k v m) = some v := by
  simp [ainsert, alookup]

theorem alookup_ainsert_ne {α : Type} {k k' : Nat} (h : k ≠ k') (v : α) (m : List (Nat × α)) :
    alookup k' (ainsert k v m) = alookup k' m := by
  simp [ainsert, alookup, h, alookup_aerase_ne h]

theorem alookup_aupdate_self {α : Type} {k : Nat} {m : List (Nat × α)}
    (h : (alookup k m).isSome) (w : α) : alookup k (aupdate k w m) = some w := by
  induction m with
  | nil => simp [alookup] at h
  | cons p rest ih =>
    by_cases hp : p.1 = k
    · simp [aupdate, alookup, hp]
    · simp only [alookup, hp, if_false] at h
      simp [aupdate, alookup, hp, ih h]

theorem alookup_aupdate_none {α : Type} {k : Nat} {m : List (Nat × α)}
    (h : alookup k m = none) (w : α) : alookup k (aupdate k w m) = none := by
  induction m with
  | nil => rfl
  | cons p rest ih =>
    by_cases hp : p.1 = k
    · simp [alookup, hp] at h
    · simp only [alookup, hp, if_false] at h
      simp [aupdate, alookup, hp, ih h]

theorem alookup_aupdate_ne {α : Type} {k k' : Nat} (h : k ≠ k') (w : α) (m : List (Nat × α)) :
    alookup k' (aupdate k w m) = alookup k' m := by
  induction m with
  | nil => rfl
  | cons p rest ih =>
    by_cases hp : p.1 = k
    · simp [aupdate, alookup, hp, h, ih]
    · by_cases hq : p.1 = k'
      · simp [aupdate, alookup, hp, hq, Ne.symm h]
      · simp [aupdate, alookup, hp, hq, ih]

theorem alookup_aupdate_isSome {α : Type} (k k' : Nat) (w : α) (m : List (Nat × α)) :
    (alookup k' (aupdate k w m)).isSome = (alookup k' m).isSome := by
  by_cases h : k = k'
  · subst h
    cases hm : alookup k m with
    | some v => rw [alookup_aupdate_self (by simp [hm]) w]; simp [hm]
    | none => simp [alookup_aupdate_none hm w, hm]
  · rw [alookup_aupdate_ne h]

theorem alookup_none_iff {α : Type} (k : Nat) (m : List (Nat × α)) :
    alookup k m = none ↔ k ∉ m.map Prod.fst := by
  induction m with
  | nil => simp [alookup]
  | cons p rest ih =>
    by_cases hp : p.1 = k
    · simp [alookup, hp]
    · simp [alookup, hp, ih, Ne.symm hp]

theorem aerase_eq_self {α : Type} (k : Nat) (m : List (Nat × α))
    (h : alookup k m = none) : aerase k m = m := by
  induction m with
  | nil => rfl
  | cons p rest ih =>
    by_cases hp : p.1 = k
    · simp [alookup, hp] at h
    · simp only [alookup, hp, if_false] at h
      simp [aerase, hp, ih h]

theorem aupdate_eq_self {α : Type} (k : Nat) (v : α) (m : List (Nat × α))
    (h : alookup k m = none) : aupdate k v m = m := by
  induction m with
  | nil => rfl
  | cons p rest ih =>
    by_cases hp : p.1 = k
    · simp [alookup, hp] at h
    · simp only [alookup, hp, if_false] at h
      simp [aupdate, hp, ih h]

theorem aerase_sublist {α : Type} (k : Nat) (m : List (Nat × α)) :
    List.Sublist (aerase k m) m := by
  induction m with
  | nil => simp [aerase]
  | cons p rest ih =>
    by_cases hp : p.1 = k
    · simp only [aerase, hp, if_true]
      exact ih.cons p
    · simp only [aerase, hp, if_false]
      exact ih.cons₂ p

theorem nodupKeys_aerase {α : Type} (k : Nat) {m : List (Nat × α)}
    (h : NodupKeys m) : NodupKeys (aerase k m) :=
  List.Nodup.sublist (List.Sublist.map Prod.fst (aerase_sublist k m)) h

theorem nodupKeys_ainsert {α : Type} (k : Nat) (v : α) {m : List (Nat × α)}
    (h : NodupKeys m) : NodupKeys (ainsert k v m) := by
  unfold NodupKeys ainsert
  rw [List.map_cons, List.nodup_cons]
  exact ⟨(alookup_none_iff k (aerase k m)).mp (alookup_aerase_self k m),
    nodupKeys_aerase k h⟩

theorem akeys_aupdate {α : Type} (k : Nat) (v : α) (m : List (Nat × α)) :
    (aupdate k v m).map Prod.fst = m.map Prod.fst := by
  induction m with
  | nil => rfl
  | cons p rest ih =>
    by_cases hp : p.1 = k
    · simp [aupdate, hp, ih]
    · simp [aupdate, hp, ih]

theorem nodupKeys_aupdate {α : Type} (k : Nat) (v : α) {m : List (Nat × α)}
    (h : NodupKeys m) : NodupKeys (aupdate k v m) := by
  unfold NodupKeys
  rw [akeys_aupdate]
  exact h

theorem alookup_aerase_none {α : Type} (k fid : Nat) {m : List (Nat × α)}
    (h : alookup k m = none) : alookup k (aerase fid m) = none := by
  by_cases hk : fid = k
  · subst hk; exact alookup_aerase_self fid m
  · rw [alookup_aerase_ne hk]; exact h

theorem isSome_of_aerase {α : Type} {k fid : Nat} {m : List (Nat × α)}
    (h : (alookup k (aerase fid m)).isSome) : (alookup k m).isSome := by
  by_cases hk : fid = k
  · subst hk; rw [alookup_aerase_self] at h; cases h
  · rwa [alookup_aerase_ne hk] at h

/-! ## Byte-buffer lemmas (C1) -/

theorem getD_set_self (l : List Nat) (i b : Nat) (h : i < l.length) :
    (l.set i b).getD i 0 = b := by
  rw [List.getD_eq_getElem _ _ (by rw [List.length_set]; exact h)]
  exact List.getElem_set_self _

theorem getD_set_ne (l : List Nat) (i j b : Nat) (h : i ≠ j) :
    (l.set i b).getD j 0 = l.getD j 0 := by
  by_cases hj : j < l.length
  · rw [List.getD_eq_getElem _ _ (by rw [List.length_set]; exact hj),
      List.getD_eq_getElem _ _ hj]
    exact List.getElem_set_ne h _
  · rw [List.getD_eq_default _ _ (by rw [List.length_set]; omega),
      List.getD_eq_default _ _ (by omega)]

theorem getD_replicate_zero (n p : Nat) : (List.replicate n (0 : Nat)).getD p 0 = 0 := by
  by_cases hp : p < n
  · rw [List.getD_eq_getElem _ _ (by simpa using hp)]
    simp
  · rw [List.getD_eq_default _ _ (by simpa using hp)]

theorem list_ext_getD (l₁ l₂ : List Nat) (hlen : l₁.length = l₂.length)
    (h : ∀ p, p < l₁.length → l₁.getD p 0 = l₂.getD p 0) : l₁ = l₂ := by
  apply List.ext_getElem hlen
  intro n h₁ h₂
  have hn := h n h₁
  rwa [List.getD_eq_getElem _ _ h₁, List.getD_eq_getElem _ _ h₂] at hn

theorem writeBytes_length (bs : List Nat) : ∀ (buf : List Nat) (start : Nat),
    (writeBytes buf start bs).length = buf.length := by
  induction bs with
  | nil => intro buf start; rfl
  | cons b rest ih =>
    intro buf start
    rw [writeBytes, ih, List.length_set]

theorem writeBytes_getD (bs : List Nat) : ∀ (buf : List Nat) (start p : Nat),
    start + bs.length ≤ buf.length →
    (writeBytes buf start bs).getD p 0 =
      if start ≤ p ∧ p < start + bs.length then bs.getD (p - start) 0 else buf.getD p 0 := by
  induction bs with
  | nil =>
    intro buf start p _
    rw [writeBytes, if_neg (by simp only [List.length_nil]; omega)]
  | cons b rest ih =>
    intro buf start p hle
    simp only [List.length_cons] at hle
    rw [writeBytes, ih (buf.set start b) (start + 1) p (by rw [List.length_set]; omega)]
    by_cases h1 : start + 1 ≤ p ∧ p < start + 1 + rest.length
    · rw [if_pos h1, if_pos (by simp only [List.length_cons]; omega)]
      have hps : p - start = (p - (start + 1)) + 1 := by omega
      rw [hps, List.getD_cons_succ]
    · rw [if_neg h1]
      by_cases h2 : p = start
      · subst h2
        rw [getD_set_self buf p b (by omega), if_pos (by simp only [List.length_cons]; omega),
          Nat.sub_self, List.getD_cons_zero]
      · rw [getD_set_ne buf start p b (fun he => h2 he.symm)]
        rw [if_neg (by simp only [List.length_cons]; omega)]

/-! ## Chunk arithmetic (C1) -/

theorem chunk_count_pos (c T : Nat) (hc : 0 < c) (hT : 0 < T) :
    0 < calc_chunk_count c T := by
  unfold calc_chunk_count
  have h1 : c / c ≤ (T + c - 1) / c := Nat.div_le_div_right (by omega)
  rw [Nat.div_self hc] at h1
  omega

theorem chunk_count_eq (c T : Nat) (hc : 0 < c) (hT : 0 < T) :
    calc_chunk_count c T = (T - 1) / c + 1 := by
  unfold calc_chunk_count
  have he : T + c - 1 = (T - 1) + c := by omega
  rw [he, Nat.add_div_right _ hc]

theorem chunk_sum_eq (c T : Nat) (hc : 0 < c) (hT : 0 < T) :
    c * (calc_chunk_count c T - 1) + ((T - 1) % c + 1) = T := by
  rw [chunk_count_eq c T hc hT]
  simp only [Nat.add_sub_cancel]
  have hdm := Nat.div_add_mod (T - 1) c
  omega

theorem lastLen_le (c T : Nat) (hc : 0 < c) : (T - 1) % c + 1 ≤ c := by
  have := Nat.mod_lt (T - 1) hc
  omega

theorem chunk_start_lt (c T : Nat) (hc : 0 < c) (hT : 0 < T) :
    c * (calc_chunk_count c T - 1) < T := by
  have := chunk_sum_eq c T hc hT
  omega

theorem expectedSize_le (c T i : Nat) (hc : 0 < c) : expectedSize c T i ≤ c := by
  unfold expectedSize
  split
  · exact lastLen_le c T hc
  · exact Nat.le_refl c

theorem expectedSize_pos (c T i : Nat) (hc : 0 < c) : 0 < expectedSize c T i := by
  unfold expectedSize
  split
  · omega
  · exact hc

theorem chunk_region_le (c T i : Nat) (hc : 0 < c) (hT : 0 < T)
    (hi : i < calc_chunk_count c T) : c * i + expectedSize c T i ≤ T := by
  by_cases hlast : i = calc_chunk_count c T - 1
  · rw [hlast]
    unfold expectedSize
    rw [if_pos rfl]
    exact Nat.le_of_eq (chunk_sum_eq c T hc hT)
  · unfold expectedSize
    rw [if_neg hlast]
    have hiN : i + 1 ≤ calc_chunk_count c T - 1 := by omega
    have h1 : c * (i + 1) ≤ c * (calc_chunk_count c T - 1) := Nat.mul_le_mul_left c hiN
    have h2 := chunk_start_lt c T hc hT
    have h3 : c * (i + 1) = c * i + c := by ring
    omega

theorem div_lt_chunk_count (c T p : Nat) (hc : 0 < c) (hT : 0 < T) (hp : p < T) :
    p / c < calc_chunk_count c T := by
  rw [chunk_count_eq c T hc hT]
  have := Nat.div_le_div_right (c := c) (show p ≤ T - 1 by omega)
  omega

theorem div_region (c p : Nat) (hc : 0 < c) : c * (p / c) ≤ p ∧ p < c * (p / c) + c := by
  have h1 := Nat.div_add_mod p c
  have h2 := Nat.mod_lt p hc
  omega

theorem region_div (c i p : Nat) (hc : 0 < c) (hlo : c * i ≤ p) (hhi : p < c * i + c) :
    p / c = i := by
  have h1 : i * c = c * i := Nat.mul_comm i c
  have h2 : (i + 1) * c = c * i + c := by ring
  exact Nat.div_eq_of_lt_le (by omega) (by omega)

theorem mod_of_div_eq (c i p : Nat) (hc : 0 < c) (hdiv : p / c = i) :
    p % c = p - c * i := by
  have := Nat.div_add_mod p c
  rw [hdiv] at this
  omega

/-! ## Concatenation and remaining-chunk lemmas (C1) -/

theorem concatUpTo_length_le (c T : Nat) (chunks : Nat → List Nat) (hc : 0 < c) (hT : 0 < T)
    (hlen : ∀ i, i < calc_chunk_count c T → (chunks i).length = expectedSize c T i) :
    ∀ n, n ≤ calc_chunk_count c T - 1 → (concatUpTo chunks n).length = c * n := by
  intro n
  induction n with
  | zero => intro _; simp [concatUpTo]
  | succ k ih =>
    intro hk
    have hN := chunk_count_pos c T hc hT
    rw [concatUpTo, List.length_append, ih (by omega),
      hlen k (by omega)]
    unfold expectedSize
    rw [if_neg (by omega)]
    ring

theorem concatUpTo_length_total (c T : Nat) (chunks : Nat → List Nat) (hc : 0 < c) (hT : 0 < T)
    (hlen : ∀ i, i < calc_chunk_count c T → (chunks i).length = expectedSize c T i) :
    (concatUpTo chunks (calc_chunk_count c T)).length = T := by
  have hN := chunk_count_pos c T hc hT
  obtain ⟨M, hM⟩ : ∃ M, calc_chunk_count c T = M + 1 := ⟨calc_chunk_count c T - 1, by omega⟩
  rw [hM, concatUpTo, List.length_append,
    concatUpTo_length_le c T chunks hc hT hlen M (by omega),
    hlen M (by omega)]
  unfold expectedSize
  rw [if_pos (by omega)]
  have hsum := chunk_sum_eq c T hc hT
  rw [hM] at hsum
  simp only [Nat.add_sub_cancel] at hsum
  omega

theorem concatUpTo_getD (c T : Nat) (chunks : Nat → List Nat) (hc : 0 < c) (hT : 0 < T)
    (hlen : ∀ i, i < calc_chunk_count c T → (chunks i).length = expectedSize c T i) :
    ∀ n, n ≤ calc_chunk_count c T → ∀ p, p < (concatUpTo chunks n).length →
      (concatUpTo chunks n).getD p 0 = (chunks (p / c)).getD (p % c) 0 := by
  intro n
  induction n with
  | zero =>
    intro _ p hp
    simp [concatUpTo] at hp
  | succ k ih =>
    intro hk p hp
    rw [concatUpTo] at hp ⊢
    have hklen : (concatUpTo chunks k).length = c * k :=
      concatUpTo_length_le c T chunks hc hT hlen k (by omega)
    by_cases hpk : p < (concatUpTo chunks k).length
    · rw [List.getD_append _ _ _ _ hpk]
      exact ih (by omega) p hpk
    · rw [List.getD_append_right _ _ _ _ (by omega)]
      rw [List.length_append, hklen] at hp
      rw [hklen] at hpk ⊢
      have hlenk : (chunks k).length = expectedSize c T k := hlen k (by omega)
      have hle : expectedSize c T k ≤ c := expectedSize_le c T k hc
      have hdiv : p / c = k := region_div c k p hc (by omega) (by omega)
      rw [hdiv, mod_of_div_eq c k p hc hdiv]

theorem remChunks_mem (N : Nat) (l : List Nat) (i : Nat) :
    i ∈ remChunks N l ↔ i < N ∧ i ∉ l := by
  unfold remChunks
  rw [List.mem_filter, List.mem_range]
  constructor
  · rintro ⟨h1, h2⟩
    refine ⟨h1, fun hm => ?_⟩
    rw [Bool.not_eq_eq_eq_not, Bool.not_true] at h2
    exact absurd hm (by simpa using h2)
  · rintro ⟨h1, h2⟩
    refine ⟨h1, ?_⟩
    simpa using h2

theorem remChunks_nil (N : Nat) : remChunks N [] = List.range N := by
  unfold remChunks
  apply List.filter_eq_self.mpr
  intro a _
  rfl

theorem remChunks_removeOne (N : Nat) (l : List Nat) (j : Nat) :
    sremove j (remChunks N l) = remChunks N (l ++ [j]) := by
  unfold remChunks sremove
  rw [List.filter_filter]
  apply List.filter_congr
  intro i _
  by_cases hij : i = j
  · subst hij
    simp
  · simp [hij]

theorem remChunks_eq_nil (N : Nat) (l : List Nat) (h : ∀ i, i < N → i ∈ l) :
    remChunks N l = [] := by
  unfold remChunks
  rw [List.filter_eq_nil_iff]
  intro a ha
  rw [List.mem_range] at ha
  simp [h a ha]

theorem remChunks_ne_nil (N : Nat) (l : List Nat) (i : Nat) (hi : i < N) (hil : i ∉ l) :
    remChunks N l ≠ [] :=
  List.ne_nil_of_mem ((remChunks_mem N l i).mpr ⟨hi, hil⟩)

/-! ## More association-list helpers (C1) -/

theorem aerase_ainsert_self {α : Type} (k : Nat) (v : α) (m : List (Nat × α))
    (h : alookup k m = none) : aerase k (ainsert k v m) = m := by
  show aerase k ((k, v) :: aerase k m) = m
  simp [aerase, aerase_eq_self k m h]

theorem aupdate_ainsert_self {α : Type} (k : Nat) (v w : α) (m : List (Nat × α))
    (h : alookup k m = none) : aupdate k w (ainsert k v m) = ainsert k w m := by
  show aupdate k w ((k, v) :: aerase k m) = (k, w) :: aerase k m
  simp [aupdate, aerase_eq_self k m h, aupdate_eq_self k w m h]

/-! ## Upload step lemmas (C1) -/

theorem expected_chunk_size_eq (pf : PendingFile) (i : Nat)
    (hi : i < calc_chunk_count pf.chunk_size pf.total_size) :
    pf.expected_chunk_size i = some (expectedSize pf.chunk_size pf.total_size i) := by
  unfold PendingFile.expected_chunk_size PendingFile.chunk_count expectedSize
  dsimp only
  by_cases hlast : i = calc_chunk_count pf.chunk_size pf.total_size - 1
  · rw [if_pos hlast, if_pos hlast]
  · rw [if_neg hlast, if_neg hlast, if_pos (by omega)]

theorem add_chunk_mid (c T : Nat) (chunks : Nat → List Nat) (u now hsh : Nat) (mt : String)
    (accsS l B : List Nat) (j : Nat) (hc : 0 < c) (hT : 0 < T)
    (hlen : ∀ i, i < calc_chunk_count c T → (chunks i).length = expectedSize c T i)
    (hj : j < calc_chunk_count c T) (hjl : j ∉ l) :
    PendingFile.add_chunk
        ⟨u, now, hsh, mt, accsS, c, T, remChunks (calc_chunk_count c T) l, B⟩ j (chunks j) =
      (AddChunkResult.Success,
       ⟨u, now, hsh, mt, accsS, c, T, remChunks (calc_chunk_count c T) (l ++ [j]),
        writeBytes B (c * j) (chunks j)⟩) := by
  unfold PendingFile.add_chunk
  rw [if_pos ((remChunks_mem _ l j).mpr ⟨hj, hjl⟩)]
  dsimp only
  simp only [expected_chunk_size_eq
    ⟨u, now, hsh, mt, accsS, c, T, sremove j (remChunks (calc_chunk_count c T) l), B⟩ j hj]
  rw [if_pos (hlen j hj).symm]
  rw [remChunks_removeOne]

theorem buffer_step (c T : Nat) (chunks : Nat → List Nat) (hc : 0 < c) (hT : 0 < T)
    (hlen : ∀ i, i < calc_chunk_count c T → (chunks i).length = expectedSize c T i)
    (l B : List Nat) (j : Nat) (hj : j < calc_chunk_count c T)
    (hBlen : B.length = T)
    (hB : ∀ p, p < T → B.getD p 0 =
      if p / c ∈ l then (chunks (p / c)).getD (p % c) 0 else 0) :
    (writeBytes B (c * j) (chunks j)).length = T ∧
    (∀ p, p < T → (writeBytes B (c * j) (chunks j)).getD p 0 =
      if p / c ∈ l ++ [j] then (chunks (p / c)).getD (p % c) 0 else 0) := by
  have hlenj : (chunks j).length = expectedSize c T j := hlen j hj
  have hreg : c * j + (chunks j).length ≤ T := by
    rw [hlenj]
    exact chunk_region_le c T j hc hT hj
  refine ⟨by rw [writeBytes_length]; exact hBlen, ?_⟩
  intro p hp
  rw [writeBytes_getD _ B (c * j) p (by omega)]
  by_cases hin : c * j ≤ p ∧ p < c * j + (chunks j).length
  · have hdiv : p / c = j := by
      apply region_div c j p hc hin.1
      have := expectedSize_le c T j hc
      omega
    rw [if_pos hin,
      if_pos (by rw [hdiv]; exact List.mem_append_right l (List.mem_singleton.mpr rfl)),
      hdiv, mod_of_div_eq c j p hc hdiv]
  · rw [if_neg hin, hB p hp]
    have hdivne : p / c ≠ j := by
      intro he
      have hr := div_region c p hc
      rw [he] at hr
      by_cases hlast : j = calc_chunk_count c T - 1
      · have hsum := chunk_sum_eq c T hc hT
        have hll : (chunks j).length = (T - 1) % c + 1 := by
          rw [hlenj]
          unfold expectedSize
          rw [if_pos hlast]
        rw [← hlast] at hsum
        omega
      · have hlc : (chunks j).length = c := by
          rw [hlenj]
          unfold expectedSize
          rw [if_neg hlast]
        omega
    by_cases hmem : p / c ∈ l
    · rw [if_pos hmem, if_pos (List.mem_append_left _ hmem)]
    · rw [if_neg hmem, if_neg (by
        intro hx
        rcases List.mem_append.mp hx with h1 | h2
        · exact hmem h1
        · exact hdivne (List.mem_singleton.mp h2))]

theorem buffer_base (c T : Nat) (chunks : Nat → List Nat) :
    (List.replicate T (0 : Nat)).length = T ∧
    (∀ p, p < T → (List.replicate T (0 : Nat)).getD p 0 =
      if p / c ∈ ([] : List Nat) then (chunks (p / c)).getD (p % c) 0 else 0) := by
  refine ⟨List.length_replicate T 0, ?_⟩
  intro p _
  rw [getD_replicate_zero, if_neg (List.not_mem_nil _)]

theorem buffer_complete (c T : Nat) (chunks : Nat → List Nat) (hc : 0 < c) (hT : 0 < T)
    (hlen : ∀ i, i < calc_chunk_count c T → (chunks i).length = expectedSize c T i)
    (l B : List Nat) (hBlen : B.length = T)
    (hB : ∀ p, p < T → B.getD p 0 =
      if p / c ∈ l then (chunks (p / c)).getD (p % c) 0 else 0)
    (hfull : ∀ i, i < calc_chunk_count c T → i ∈ l) :
    B = concatUpTo chunks (calc_chunk_count c T) := by
  have hclen := concatUpTo_length_total c T chunks hc hT hlen
  refine list_ext_getD B _ (by rw [hBlen, hclen]) ?_
  intro p hp
  rw [hBlen] at hp
  rw [hB p hp, if_pos (hfull _ (div_lt_chunk_count c T p hc hT hp)),
    concatUpTo_getD c T chunks hc hT hlen _ (Nat.le_refl _) p (by rw [hclen]; exact hp)]

theorem put_chunk_mid_step (hashFn : List Nat → Nat) (maxBS c T : Nat)
    (chunks : Nat → List Nat) (u fid now : Nat) (mt : String) (accs : List Nat)
    (s₀ : Files) (l B : List Nat) (j : Nat)
    (hc : 0 < c) (hT : 0 < T) (hmax : T ≤ maxBS)
    (hlen : ∀ i, i < calc_chunk_count c T → (chunks i).length = expectedSize c T i)
    (hfiles : alookup fid s₀.files = none) (hpend : alookup fid s₀.pending_files = none)
    (hj : j < calc_chunk_count c T) (hjl : j ∉ l)
    (hnotdone : remChunks (calc_chunk_count c T) (l ++ [j]) ≠ []) :
    Files.put_chunk hashFn maxBS
        (midState s₀ fid ⟨u, now, hashFn (concatUpTo chunks (calc_chunk_count c T)), mt,
          accSet accs, c, T, remChunks (calc_chunk_count c T) l, B⟩)
        (mkUploadArgs u fid (hashFn (concatUpTo chunks (calc_chunk_count c T))) mt accs c T
          now chunks j) =
      (PutChunkResult.Success false none,
       midState s₀ fid ⟨u, now, hashFn (concatUpTo chunks (calc_chunk_count c T)), mt,
         accSet accs, c, T, remChunks (calc_chunk_count c T) (l ++ [j]),
         writeBytes B (c * j) (chunks j)⟩) := by
  unfold Files.put_chunk midState mkUploadArgs
  dsimp only
  rw [if_neg (by omega)]
  rw [hfiles]
  simp only [Option.isSome_none, Bool.false_eq_true, if_false]
  rw [alookup_ainsert_self]
  simp only [add_chunk_mid c T chunks u now (hashFn (concatUpTo chunks (calc_chunk_count c T)))
    mt (accSet accs) l B j hc hT hlen hj hjl]
  simp only [PendingFile.is_completed]
  rw [if_neg (fun hcon => hnotdone (List.isEmpty_eq_true.mp hcon))]
  rw [aupdate_ainsert_self fid _ _ _ hpend]

theorem put_chunk_mid_complete (hashFn : List Nat → Nat) (maxBS c T : Nat)
    (chunks : Nat → List Nat) (u fid now : Nat) (mt : String) (accs : List Nat)
    (s₀ : Files) (l B : List Nat) (j : Nat)
    (hc : 0 < c) (hT : 0 < T) (hmax : T ≤ maxBS)
    (hlen : ∀ i, i < calc_chunk_count c T → (chunks i).length = expectedSize c T i)
    (hfiles : alookup fid s₀.files = none) (hpend : alookup fid s₀.pending_files = none)
    (hblob : alookup (hashFn (concatUpTo chunks (calc_chunk_count c T))) s₀.blobs = none)
    (hj : j < calc_chunk_count c T) (hjl : j ∉ l)
    (hdone : remChunks (calc_chunk_count c T) (l ++ [j]) = [])
    (hB : writeBytes B (c * j) (chunks j) = concatUpTo chunks (calc_chunk_count c T)) :
    (Files.put_chunk hashFn maxBS
        (midState s₀ fid ⟨u, now, hashFn (concatUpTo chunks (calc_chunk_count c T)), mt,
          accSet accs, c, T, remChunks (calc_chunk_count c T) l, B⟩)
        (mkUploadArgs u fid (hashFn (concatUpTo chunks (calc_chunk_count c T))) mt accs c T
          now chunks j)).1 = PutChunkResult.Success true none ∧
    Files.blob_bytes
        (Files.put_chunk hashFn maxBS
          (midState s₀ fid ⟨u, now, hashFn (concatUpTo chunks (calc_chunk_count c T)), mt,
            accSet accs, c, T, remChunks (calc_chunk_count c T) l, B⟩)
          (mkUploadArgs u fid (hashFn (concatUpTo chunks (calc_chunk_count c T))) mt accs c T
            now chunks j)).2
        (hashFn (concatUpTo chunks (calc_chunk_count c T))) =
      some (concatUpTo chunks (calc_chunk_count c T)) := by
  have hrun : Files.put_chunk hashFn maxBS
      (midState s₀ fid ⟨u, now, hashFn (concatUpTo chunks (calc_chunk_count c T)), mt,
        accSet accs, c, T, remChunks (calc_chunk_count c T) l, B⟩)
      (mkUploadArgs u fid (hashFn (concatUpTo chunks (calc_chunk_count c T))) mt accs c T
        now chunks j) =
      (PutChunkResult.Success true none,
       Files.insert_completed_file ({ s₀ with pending_files := s₀.pending_files }) fid
         ⟨u, now, hashFn (concatUpTo chunks (calc_chunk_count c T)), mt, accSet accs, c, T,
          [], concatUpTo chunks (calc_chunk_count c T)⟩ now) := by
    unfold Files.put_chunk midState mkUploadArgs
    dsimp only
    rw [if_neg (by omega)]
    rw [hfiles]
    simp only [Option.isSome_none, Bool.false_eq_true, if_false]
    rw [alookup_ainsert_self]
    simp only [add_chunk_mid c T chunks u now
      (hashFn (concatUpTo chunks (calc_chunk_count c T))) mt (accSet accs) l B j hc hT hlen
      hj hjl]
    rw [hdone, hB]
    simp only [PendingFile.is_completed, List.isEmpty_nil]
    rw [if_pos trivial]
    rw [aerase_ainsert_self fid _ _ hpend]
    unfold Files.complete_pending
    dsimp only
    rw [if_pos rfl]
  rw [hrun]
  refine ⟨rfl, ?_⟩
  unfold Files.insert_completed_file Files.add_blob_if_not_exists Files.blob_bytes
  dsimp only
  rw [hblob]
  dsimp only
  exact alookup_ainsert_self _ _ _

theorem put_chunk_first_pf (c T : Nat) (chunks : Nat → List Nat) (u fid now : Nat)
    (mt : String) (accs : List Nat) (hsh j : Nat) (hc : 0 < c) (hT : 0 < T)
    (hlen : ∀ i, i < calc_chunk_count c T → (chunks i).length = expectedSize c T i)
    (hj : j < calc_chunk_count c T) :
    pendingFileFromArgs (mkUploadArgs u fid hsh mt accs c T now chunks j) =
      ⟨u, now, hsh, mt, accSet accs, c, T, remChunks (calc_chunk_count c T) [j],
       writeBytes (List.replicate T 0) (c * j) (chunks j)⟩ := by
  unfold pendingFileFromArgs mkUploadArgs
  dsimp only
  rw [show (List.range (calc_chunk_count c T)) =
    remChunks (calc_chunk_count c T) [] from (remChunks_nil _).symm]
  rw [show (accs.foldl (fun s a => sinsert a s) []) = accSet accs from rfl]
  rw [add_chunk_mid c T chunks u now hsh mt (accSet accs) [] (List.replicate T 0) j hc hT
    hlen hj (List.not_mem_nil j)]
  rw [List.nil_append]

theorem put_chunk_start_step (hashFn : List Nat → Nat) (maxBS c T : Nat)
    (chunks : Nat → List Nat) (u fid now : Nat) (mt : String) (accs : List Nat)
    (s₀ : Files) (j : Nat)
    (hc : 0 < c) (hT : 0 < T) (hmax : T ≤ maxBS)
    (hlen : ∀ i, i < calc_chunk_count c T → (chunks i).length = expectedSize c T i)
    (hfiles : alookup fid s₀.files = none) (hpend : alookup fid s₀.pending_files = none)
    (hj : j < calc_chunk_count c T)
    (hnotdone : remChunks (calc_chunk_count c T) [j] ≠ []) :
    Files.put_chunk hashFn maxBS s₀
        (mkUploadArgs u fid (hashFn (concatUpTo chunks (calc_chunk_count c T))) mt accs c T
          now chunks j) =
      (PutChunkResult.Success false
        (some ⟨u, fid, hashFn (concatUpTo chunks (calc_chunk_count c T)), T⟩),
       midState s₀ fid ⟨u, now, hashFn (concatUpTo chunks (calc_chunk_count c T)), mt,
         accSet accs, c, T, remChunks (calc_chunk_count c T) [j],
         writeBytes (List.replicate T 0) (c * j) (chunks j)⟩) := by
  unfold Files.put_chunk
  rw [put_chunk_first_pf c T chunks u fid now mt accs _ j hc hT hlen hj]
  dsimp only [mkUploadArgs]
  rw [if_neg (by omega)]
  rw [hfiles]
  simp only [Option.isSome_none, Bool.false_eq_true, if_false]
  rw [hpend]
  dsimp only
  simp only [PendingFile.is_completed]
  rw [if_neg (fun hcon => hnotdone (List.isEmpty_eq_true.mp hcon))]
  rfl

theorem put_chunk_start_complete (hashFn : List Nat → Nat) (maxBS c T : Nat)
    (chunks : Nat → List Nat) (u fid now : Nat) (mt : String) (accs : List Nat)
    (s₀ : Files) (j : Nat)
    (hc : 0 < c) (hT : 0 < T) (hmax : T ≤ maxBS)
    (hlen : ∀ i, i < calc_chunk_count c T → (chunks i).length = expectedSize c T i)
    (hfiles : alookup fid s₀.files = none) (hpend : alookup fid s₀.pending_files = none)
    (hblob : alookup (hashFn (concatUpTo chunks (calc_chunk_count c T))) s₀.blobs = none)
    (hj : j < calc_chunk_count c T)
    (hdone : remChunks (calc_chunk_count c T) [j] = [])
    (hB : writeBytes (List.replicate T 0) (c * j) (chunks j) =
      concatUpTo chunks (calc_chunk_count c T)) :
    (Files.put_chunk hashFn maxBS s₀
        (mkUploadArgs u fid (hashFn (concatUpTo chunks (calc_chunk_count c T))) mt accs c T
          now chunks j)).1 =
      PutChunkResult.Success true
        (some ⟨u, fid, hashFn (concatUpTo chunks (calc_chunk_count c T)), T⟩) ∧
    Files.blob_bytes
        (Files.put_chunk hashFn maxBS s₀
          (mkUploadArgs u fid (hashFn (concatUpTo chunks (calc_chunk_count c T))) mt accs c T
            now chunks j)).2
        (hashFn (concatUpTo chunks (calc_chunk_count c T))) =
      some (concatUpTo chunks (calc_chunk_count c T)) := by
  have hrun : Files.put_chunk hashFn maxBS s₀
      (mkUploadArgs u fid (hashFn (concatUpTo chunks (calc_chunk_count c T))) mt accs c T
        now chunks j) =
      (PutChunkResult.Success true
        (some ⟨u, fid, hashFn (concatUpTo chunks (calc_chunk_count c T)), T⟩),
       Files.insert_completed_file s₀ fid
         ⟨u, now, hashFn (concatUpTo chunks (calc_chunk_count c T)), mt, accSet accs, c, T,
          [], concatUpTo chunks (calc_chunk_count c T)⟩ now) := by
    unfold Files.put_chunk
    rw [put_chunk_first_pf c T chunks u fid now mt accs _ j hc hT hlen hj]
    dsimp only [mkUploadArgs]
    rw [if_neg (by omega)]
    rw [hfiles]
    simp only [Option.isSome_none, Bool.false_eq_true, if_false]
    rw [hpend]
    dsimp only
    rw [hdone, hB]
    simp only [PendingFile.is_completed, List.isEmpty_nil]
    rw [if_pos trivial]
    unfold Files.complete_pending
    dsimp only
    rw [if_pos rfl]
  rw [hrun]
  refine ⟨rfl, ?_⟩
  unfold Files.insert_completed_file Files.add_blob_if_not_exists Files.blob_bytes
  dsimp only
  rw [hblob]
  dsimp only
  exact alookup_ainsert_self _ _ _

theorem runUpload_length (hashFn : List Nat → Nat) (maxBS : Nat) :
    ∀ (as : List PutChunkArgs) (s : Files),
      (runUpload hashFn maxBS s as).1.length = as.length := by
  intro as
  induction as with
  | nil => intro s; rfl
  | cons a rest ih =>
    intro s
    simp only [runUpload, List.length_cons, ih]

theorem getLast?_cons_of_ne_nil {α : Type} (x : α) (xs : List α) (h : xs ≠ []) :
    (x :: xs).getLast? = xs.getLast? := by
  cases xs with
  | nil => exact absurd rfl h
  | cons y ys => exact List.getLast?_cons_cons

theorem upload_aux (hashFn : List Nat → Nat) (maxBS c T : Nat) (chunks : Nat → List Nat)
    (u fid now : Nat) (mt : String) (accs : List Nat) (s₀ : Files)
    (hc : 0 < c) (hT : 0 < T) (hmax : T ≤ maxBS)
    (hlen : ∀ i, i < calc_chunk_count c T → (chunks i).length = expectedSize c T i)
    (hfiles : alookup fid s₀.files = none) (hpend : alookup fid s₀.pending_files = none)
    (hblob : alookup (hashFn (concatUpTo chunks (calc_chunk_count c T))) s₀.blobs = none) :
    ∀ (rest l B : List Nat),
      (l ++ rest).Nodup →
      (∀ i, i ∈ l ++ rest → i < calc_chunk_count c T) →
      (∀ i, i < calc_chunk_count c T → i ∈ l ++ rest) →
      B.length = T →
      (∀ p, p < T → B.getD p 0 =
        if p / c ∈ l then (chunks (p / c)).getD (p % c) 0 else 0) →
      rest ≠ [] →
      (∀ r, r ∈ (runUpload hashFn maxBS
          (midState s₀ fid ⟨u, now, hashFn (concatUpTo chunks (calc_chunk_count c T)), mt,
            accSet accs, c, T, remChunks (calc_chunk_count c T) l, B⟩)
          (rest.map (mkUploadArgs u fid (hashFn (concatUpTo chunks (calc_chunk_count c T)))
            mt accs c T now chunks))).1 → r.isSuccess = true) ∧
      (∃ fa, (runUpload hashFn maxBS
          (midState s₀ fid ⟨u, now, hashFn (concatUpTo chunks (calc_chunk_count c T)), mt,
            accSet accs, c, T, remChunks (calc_chunk_count c T) l, B⟩)
          (rest.map (mkUploadArgs u fid (hashFn (concatUpTo chunks (calc_chunk_count c T)))
            mt accs c T now chunks))).1.getLast? =
        some (PutChunkResult.Success true fa)) ∧
      Files.blob_bytes (runUpload hashFn maxBS
          (midState s₀ fid ⟨u, now, hashFn (concatUpTo chunks (calc_chunk_count c T)), mt,
            accSet accs, c, T, remChunks (calc_chunk_count c T) l, B⟩)
          (rest.map (mkUploadArgs u fid (hashFn (concatUpTo chunks (calc_chunk_count c T)))
            mt accs c T now chunks))).2
          (hashFn (concatUpTo chunks (calc_chunk_count c T))) =
        some (concatUpTo chunks (calc_chunk_count c T)) := by
  intro rest
  induction rest with
  | nil =>
    intro l B _ _ _ _ _ hne
    exact absurd rfl hne
  | cons j rest' ih =>
    intro l B hnd hmemlt hfull hBlen hB _
    have hj : j < calc_chunk_count c T := hmemlt j (by simp)
    have hdisj := List.nodup_append.mp hnd
    have hjl : j ∉ l := fun hmem => hdisj.2.2 hmem (List.mem_cons_self j rest')
    obtain ⟨hBlen', hB'⟩ := buffer_step c T chunks hc hT hlen l B j hj hBlen hB
    rw [List.map_cons]
    cases rest' with
    | nil =>
      have hdone : remChunks (calc_chunk_count c T) (l ++ [j]) = [] :=
        remChunks_eq_nil _ _ (fun i hi => hfull i hi)
      have hconc : writeBytes B (c * j) (chunks j) =
          concatUpTo chunks (calc_chunk_count c T) :=
        buffer_complete c T chunks hc hT hlen (l ++ [j]) _ hBlen' hB'
          (fun i hi => hfull i hi)
      obtain ⟨hres1, hblobres⟩ := put_chunk_mid_complete hashFn maxBS c T chunks u fid now
        mt accs s₀ l B j hc hT hmax hlen hfiles hpend hblob hj hjl hdone hconc
      refine ⟨?_, ⟨none, ?_⟩, ?_⟩
      · intro r hr
        simp only [runUpload, List.map_nil] at hr
        rw [List.mem_singleton] at hr
        rw [hr, hres1]
        rfl
      · simp only [runUpload, List.map_nil]
        rw [hres1]
        rfl
      · simp only [runUpload, List.map_nil]
        exact hblobres
    | cons r₂ rest'' =>
      have hr₂N : r₂ < calc_chunk_count c T := hmemlt r₂ (by simp)
      have hr₂nl : r₂ ∉ l ++ [j] := by
        intro hmem
        rcases List.mem_append.mp hmem with h1 | h2
        · exact hdisj.2.2 h1 (by simp)
        · have : r₂ = j := List.mem_singleton.mp h2
          have hnd2 := hdisj.2.1
          rw [List.nodup_cons] at hnd2
          exact hnd2.1 (by rw [← this]; simp)
      have hnotdone : remChunks (calc_chunk_count c T) (l ++ [j]) ≠ [] :=
        remChunks_ne_nil _ _ r₂ hr₂N hr₂nl
      have hstep := put_chunk_mid_step hashFn maxBS c T chunks u fid now mt accs s₀ l B j
        hc hT hmax hlen hfiles hpend hj hjl hnotdone
      have ihh := ih (l ++ [j]) (writeBytes B (c * j) (chunks j))
        (by simpa only [List.append_assoc, List.singleton_append] using hnd)
        (fun i hi => hmemlt i
          (by simpa only [List.append_assoc, List.singleton_append] using hi))
        (fun i hi => by
          simpa only [List.append_assoc, List.singleton_append] using hfull i hi)
        hBlen' hB' (by simp)
      obtain ⟨ihsucc, ⟨fa, ihlast⟩, ihblob⟩ := ihh
      simp only [runUpload] at ihsucc ihlast ihblob
      refine ⟨?_, ⟨fa, ?_⟩, ?_⟩
      · intro r hr
        simp only [runUpload] at hr
        rw [hstep] at hr
        rcases List.mem_cons.mp hr with h1 | h2
        · rw [h1]; rfl
        · exact ihsucc r h2
      · simp only [runUpload]
        rw [hstep]
        dsimp only
        rw [List.getLast?_cons_cons]
        exact ihlast
      · simp only [runUpload]
        rw [hstep]
        exact ihblob

/-- C1: round-trip of upload and read.  Upload a file of `T > 0` bytes as
`N = ⌈T / c⌉` chunks through `Files::put_chunk`, submitting the chunk
indices in any order (`perm` is any permutation of `0, …, N−1`) with each
chunk's byte-count matching the declared `chunk_size` partition.  Then every
call returns `Success`, the final call completes the file, and
`blob_bytes(hash)` returns exactly the concatenation of the submitted
chunks in index order. -/
theorem upload_roundtrip (hashFn : List Nat → Nat) (maxBS c T : Nat)
    (chunks : Nat → List Nat) (u fid now : Nat) (mt : String) (accs : List Nat)
    (s₀ : Files) (perm : List Nat)
    (hc : 0 < c) (hT : 0 < T) (hmax : T ≤ maxBS)
    (hlen : ∀ i, i < calc_chunk_count c T → (chunks i).length = expectedSize c T i)
    (hperm : perm.Perm (List.range (calc_chunk_count c T)))
    (hfiles : alookup fid s₀.files = none) (hpend : alookup fid s₀.pending_files = none)
    (hblob : alookup (hashFn (concatUpTo chunks (calc_chunk_count c T))) s₀.blobs = none) :
    (∀ r, r ∈ (runUpload hashFn maxBS s₀ (perm.map (mkUploadArgs u fid
        (hashFn (concatUpTo chunks (calc_chunk_count c T))) mt accs c T now chunks))).1 →
      r.isSuccess = true) ∧
    (∃ fa, (runUpload hashFn maxBS s₀ (perm.map (mkUploadArgs u fid
        (hashFn (concatUpTo chunks (calc_chunk_count c T))) mt accs c T now chunks))).1.getLast? =
      some (PutChunkResult.Success true fa)) ∧
    Files.blob_bytes (runUpload hashFn maxBS s₀ (perm.map (mkUploadArgs u fid
        (hashFn (concatUpTo chunks (calc_chunk_count c T))) mt accs c T now chunks))).2
        (hashFn (concatUpTo chunks (calc_chunk_count c T))) =
      some (concatUpTo chunks (calc_chunk_count c T)) := by
  have hN := chunk_count_pos c T hc hT
  have hndperm : perm.Nodup := hperm.nodup_iff.mpr (List.nodup_range _)
  have hmem : ∀ i, i ∈ perm ↔ i < calc_chunk_count c T := by
    intro i
    rw [hperm.mem_iff, List.mem_range]
  cases perm with
  | nil =>
    exfalso
    have hlen0 := hperm.length_eq
    simp at hlen0
    omega
  | cons j₀ rest =>
    have hj₀ : j₀ < calc_chunk_count c T := (hmem j₀).mp (by simp)
    obtain ⟨hB0len, hB0⟩ := buffer_base c T chunks
    obtain ⟨hB1len, hB1⟩ := buffer_step c T chunks hc hT hlen [] (List.replicate T 0) j₀
      hj₀ hB0len hB0
    simp only [List.nil_append] at hB1
    rw [List.map_cons]
    cases rest with
    | nil =>
      have hdone : remChunks (calc_chunk_count c T) [j₀] = [] :=
        remChunks_eq_nil _ _ (fun i hi => (hmem i).mpr hi)
      have hconc : writeBytes (List.replicate T 0) (c * j₀) (chunks j₀) =
          concatUpTo chunks (calc_chunk_count c T) :=
        buffer_complete c T chunks hc hT hlen [j₀] _ hB1len hB1
          (fun i hi => (hmem i).mpr hi)
      obtain ⟨hres1, hblobres⟩ := put_chunk_start_complete hashFn maxBS c T chunks u fid
        now mt accs s₀ j₀ hc hT hmax hlen hfiles hpend hblob hj₀ hdone hconc
      refine ⟨?_, ⟨some ⟨u, fid, hashFn (concatUpTo chunks (calc_chunk_count c T)), T⟩, ?_⟩, ?_⟩
      · intro r hr
        simp only [runUpload, List.map_nil] at hr
        rw [List.mem_singleton] at hr
        rw [hr, hres1]
        rfl
      · simp only [runUpload, List.map_nil]
        rw [hres1]
        rfl
      · simp only [runUpload, List.map_nil]
        exact hblobres
    | cons r₂ rest'' =>
      have hr₂N : r₂ < calc_chunk_count c T := (hmem r₂).mp (by simp)
      have hr₂ne : r₂ ∉ [j₀] := by
        intro hmem2
        have : r₂ = j₀ := List.mem_singleton.mp hmem2
        rw [List.nodup_cons] at hndperm
        exact hndperm.1 (by rw [← this]; simp)
      have hnotdone : remChunks (calc_chunk_count c T) [j₀] ≠ [] :=
        remChunks_ne_nil _ _ r₂ hr₂N hr₂ne
      have hstart := put_chunk_start_step hashFn maxBS c T chunks u fid now mt accs s₀ j₀
        hc hT hmax hlen hfiles hpend hj₀ hnotdone
      have ihh := upload_aux hashFn maxBS c T chunks u fid now mt accs s₀ hc hT hmax hlen
        hfiles hpend hblob (r₂ :: rest'') [j₀]
        (writeBytes (List.replicate T 0) (c * j₀) (chunks j₀))
        hndperm (fun i hi => (hmem i).mp hi) (fun i hi => (hmem i).mpr hi)
        hB1len hB1 (by simp)
      obtain ⟨ihsucc, ⟨fa, ihlast⟩, ihblob⟩ := ihh
      simp only [runUpload] at ihsucc ihlast ihblob
      refine ⟨?_, ⟨fa, ?_⟩, ?_⟩
      · intro r hr
        simp only [runUpload] at hr
        rw [hstart] at hr
        rcases List.mem_cons.mp hr with h1 | h2
        · rw [h1]; rfl
        · exact ihsucc r h2
      · simp only [runUpload]
        rw [hstart]
        dsimp only
        rw [List.getLast?_cons_cons]
        exact ihlast
      · simp only [runUpload]
        rw [hstart]
        exact ihblob

/-! ## Counting and size lemmas -/

theorem countFilesWithHash_cons (h : Nat) (p : Nat × File) (files : List (Nat × File)) :
    countFilesWithHash h (p :: files) =
      (if p.2.hash = h then 1 else 0) + countFilesWithHash h files := by
  by_cases hp : p.2.hash = h
  · simp [countFilesWithHash, List.filter_cons, hp, Nat.add_comm]
  · simp [countFilesWithHash, List.filter_cons, hp]

theorem countFilesWithHash_ainsert (h fid : Nat) (f : File) {files : List (Nat × File)}
    (hnone : alookup fid files = none) :
    countFilesWithHash h (ainsert fid f files) =
      (if f.hash = h then 1 else 0) + countFilesWithHash h files := by
  rw [ainsert, aerase_eq_self fid files hnone, countFilesWithHash_cons]

theorem countFilesWithHash_aerase {files : List (Nat × File)} {fid : Nat} {f : File}
    (hnd : NodupKeys files) (hf : alookup fid files = some f) (h : Nat) :
    countFilesWithHash h files =
      countFilesWithHash h (aerase fid files) + (if f.hash = h then 1 else 0) := by
  induction files with
  | nil => cases hf
  | cons p rest ih =>
    rw [NodupKeys, List.map_cons, List.nodup_cons] at hnd
    by_cases hp : p.1 = fid
    · rw [alookup, if_pos hp] at hf
      have hfp : f = p.2 := (Option.some.inj hf).symm
      have hrest : alookup fid rest = none := by
        rw [alookup_none_iff]
        rw [hp] at hnd
        exact hnd.1
      rw [aerase, if_pos hp, aerase_eq_self fid rest hrest, countFilesWithHash_cons, hfp]
      omega
    · rw [alookup, if_neg hp] at hf
      rw [aerase, if_neg hp, countFilesWithHash_cons, countFilesWithHash_cons,
        ih hnd.2 hf]
      omega

theorem countFilesWithHash_aupdate {files : List (Nat × File)} {fid : Nat} {f : File}
    (f' : File) (hnd : NodupKeys files) (hf : alookup fid files = some f)
    (hsame : f'.hash = f.hash) (h : Nat) :
    countFilesWithHash h (aupdate fid f' files) = countFilesWithHash h files := by
  induction files with
  | nil => cases hf
  | cons p rest ih =>
    rw [NodupKeys, List.map_cons, List.nodup_cons] at hnd
    by_cases hp : p.1 = fid
    · rw [alookup, if_pos hp] at hf
      have hfp : f = p.2 := (Option.some.inj hf).symm
      have hrest : alookup fid rest = none := by
        rw [alookup_none_iff]
        rw [hp] at hnd
        exact hnd.1
      rw [aupdate, if_pos hp, aupdate_eq_self fid f' rest hrest,
        countFilesWithHash_cons, countFilesWithHash_cons]
      have : f'.hash = p.2.hash := by rw [hsame, hfp]
      rw [this]
    · rw [alookup, if_neg hp] at hf
      rw [aupdate, if_neg hp, countFilesWithHash_cons, countFilesWithHash_cons,
        ih hnd.2 hf]

theorem countFilesWithHash_pos {files : List (Nat × File)} {fid : Nat} {f : File}
    (hf : alookup fid files = some f) : 0 < countFilesWithHash f.hash files := by
  induction files with
  | nil => cases hf
  | cons p rest ih =>
    by_cases hp : p.1 = fid
    · rw [alookup, if_pos hp] at hf
      have hfp : f = p.2 := (Option.some.inj hf).symm
      rw [countFilesWithHash_cons, hfp]
      simp
    · rw [alookup, if_neg hp] at hf
      rw [countFilesWithHash_cons]
      have := ih hf
      omega

theorem blobsSize_cons (p : Nat × List Nat) (m : List (Nat × List Nat)) :
    blobsSize (p :: m) = p.2.length + blobsSize m := by
  simp [blobsSize]

theorem blobsSize_ainsert (h : Nat) (b : List Nat) {m : List (Nat × List Nat)}
    (hnone : alookup h m = none) :
    blobsSize (ainsert h b m) = b.length + blobsSize m := by
  rw [ainsert, aerase_eq_self h m hnone, blobsSize_cons]

theorem blobsSize_aerase {m : List (Nat × List Nat)} {h : Nat} {b : List Nat}
    (hnd : NodupKeys m) (hb : alookup h m = some b) :
    blobsSize m = b.length + blobsSize (aerase h m) := by
  induction m with
  | nil => cases hb
  | cons p rest ih =>
    rw [NodupKeys, List.map_cons, List.nodup_cons] at hnd
    by_cases hp : p.1 = h
    · rw [alookup, if_pos hp] at hb
      have hbp : b = p.2 := (Option.some.inj hb).symm
      have hrest : alookup h rest = none := by
        rw [alookup_none_iff]
        rw [hp] at hnd
        exact hnd.1
      rw [aerase, if_pos hp, aerase_eq_self h rest hrest, blobsSize_cons, hbp]
    · rw [alookup, if_neg hp] at hb
      rw [aerase, if_neg hp, blobsSize_cons, blobsSize_cons, ih hnd.2 hb]
      omega

/-! ## Reference-count operation lemmas -/

theorem rcIncr_lookup_self (h : Nat) (m : List (Nat × Nat)) :
    alookup h (rcIncr h m).2 = some (rcGet h m + 1) := by
  cases hm : alookup h m with
  | some c =>
    rw [rcIncr, hm]
    simpa [rcGet, hm] using alookup_aupdate_self (by simp [hm]) (c + 1)
  | none =>
    rw [rcIncr, hm]
    simpa [rcGet, hm] using alookup_ainsert_self h 1 m

theorem rcIncr_lookup_ne {h h' : Nat} (hne : h ≠ h') (m : List (Nat × Nat)) :
    alookup h' (rcIncr h m).2 = alookup h' m := by
  cases hm : alookup h m with
  | some c => rw [rcIncr, hm]; exact alookup_aupdate_ne hne _ m
  | none => rw [rcIncr, hm]; exact alookup_ainsert_ne hne _ m

theorem rcDecr_fst (h : Nat) (m : List (Nat × Nat)) :
    (rcDecr h m).1 = rcGet h m - 1 := by
  cases hm : alookup h m with
  | some c =>
    rw [rcDecr, hm]
    by_cases hc : 1 < c
    · simp [hc, rcGet, hm]
    · simp only [hc, if_false]
      simp only [rcGet, hm, Option.getD_some]
      omega
  | none => simp [rcDecr, hm, rcGet]

theorem rcDecr_lookup_self (h : Nat) (m : List (Nat × Nat)) :
    rcGet h (rcDecr h m).2 = rcGet h m - 1 := by
  cases hm : alookup h m with
  | some c =>
    rw [rcDecr, hm]
    by_cases hc : 1 < c
    · simp only [hc, if_true]
      rw [rcGet, alookup_aupdate_self (by simp [hm]) (c - 1)]
      simp [rcGet, hm]
    · simp only [hc, if_false]
      rw [rcGet, alookup_aerase_self]
      simp only [rcGet, hm, Option.getD_some, Option.getD_none]
      omega
  | none => simp [rcDecr, hm, rcGet]

theorem rcDecr_lookup_ne {h h' : Nat} (hne : h ≠ h') (m : List (Nat × Nat)) :
    alookup h' (rcDecr h m).2 = alookup h' m := by
  cases hm : alookup h m with
  | some c =>
    rw [rcDecr, hm]
    by_cases hc : 1 < c
    · simp only [hc, if_true]; exact alookup_aupdate_ne hne _ m
    · simp only [hc, if_false]; exact alookup_aerase_ne hne m
  | none => rw [rcDecr, hm]

/-! ## C2 — invariant preservation -/

theorem inv_set_pending (s : Files) (newpend : List (Nat × PendingFile)) (hInv : Inv s)
    (hp : ∀ k, (alookup k s.files).isSome → alookup k newpend = none) :
    Inv { s with pending_files := newpend } :=
  ⟨hInv.files_nodup, hInv.blobs_nodup, hInv.rc_eq, hInv.blob_iff, hInv.bytes_eq, hp⟩

theorem inv_erase_pending (s : Files) (fid : Nat) (hInv : Inv s) :
    Inv { s with pending_files := aerase fid s.pending_files } :=
  inv_set_pending s _ hInv fun k hk => alookup_aerase_none k fid (hInv.keysets_disjoint k hk)

theorem inv_insert_completed_file (s : Files) (file_id : Nat) (cf : PendingFile) (now : Nat)
    (hInv : Inv s) (hfiles : alookup file_id s.files = none)
    (hpend : alookup file_id s.pending_files = none) :
    Inv (s.insert_completed_file file_id cf now) := by
  have hdisj : ∀ k, (alookup k (ainsert file_id
      ({ uploaded_by := cf.uploaded_by, created := now, accessors := cf.accessors,
         hash := cf.hash, mime_type := cf.mime_type } : File) s.files)).isSome →
      alookup k s.pending_files = none := by
    intro k hk
    by_cases hkf : k = file_id
    · rw [hkf]; exact hpend
    · rw [alookup_ainsert_ne (fun he => hkf he.symm)] at hk
      exact hInv.keysets_disjoint k hk
  have hrc : ∀ h, rcGet h (rcIncr cf.hash s.reference_counts).2 =
      countFilesWithHash h (ainsert file_id
        ({ uploaded_by := cf.uploaded_by, created := now, accessors := cf.accessors,
           hash := cf.hash, mime_type := cf.mime_type } : File) s.files) := by
    intro h
    rw [countFilesWithHash_ainsert h file_id _ hfiles]
    by_cases hh : cf.hash = h
    · subst hh
      rw [rcGet, rcIncr_lookup_self, if_pos rfl]
      simp only [Option.getD_some]
      rw [hInv.rc_eq cf.hash]
      omega
    · rw [rcGet, rcIncr_lookup_ne hh, if_neg hh, ← rcGet, hInv.rc_eq h]
      omega
  cases hbl : alookup cf.hash s.blobs with
  | some b =>
    have hpos : 0 < rcGet cf.hash s.reference_counts := by
      have := (hInv.blob_iff cf.hash).mp (by rw [hbl]; rfl)
      omega
    simp only [Files.insert_completed_file, Files.add_blob_if_not_exists, hbl]
    refine ⟨nodupKeys_ainsert file_id _ hInv.files_nodup, hInv.blobs_nodup, hrc, ?_,
      hInv.bytes_eq, hdisj⟩
    intro h
    by_cases hh : cf.hash = h
    · subst hh
      rw [rcGet, rcIncr_lookup_self, hbl]
      simp
    · rw [rcGet, rcIncr_lookup_ne hh, ← rcGet]
      exact hInv.blob_iff h
  | none =>
    simp only [Files.insert_completed_file, Files.add_blob_if_not_exists, hbl]
    refine ⟨nodupKeys_ainsert file_id _ hInv.files_nodup,
      nodupKeys_ainsert cf.hash _ hInv.blobs_nodup, hrc, ?_, ?_, hdisj⟩
    · intro h
      by_cases hh : cf.hash = h
      · subst hh
        rw [alookup_ainsert_self, rcGet, rcIncr_lookup_self]
        simp
      · rw [alookup_ainsert_ne hh, rcGet, rcIncr_lookup_ne hh, ← rcGet]
        exact hInv.blob_iff h
    · dsimp only
      rw [blobsSize_ainsert cf.hash cf.bytes hbl, hInv.bytes_eq]
      omega

theorem inv_complete_pending (hashFn : List Nat → Nat) (s : Files) (fid now : Nat)
    (cf : PendingFile) (fa : Option FileAdded) (hInv : Inv s)
    (hfiles : alookup fid s.files = none) (hpend : alookup fid s.pending_files = none) :
    Inv (Files.complete_pending hashFn s fid now cf fa).2 := by
  unfold Files.complete_pending
  by_cases hh : hashFn cf.bytes = cf.hash
  · simp only [hh, if_pos rfl]
    exact inv_insert_completed_file s fid cf now hInv hfiles hpend
  · simp only [if_neg hh]
    exact hInv

theorem inv_delete_state (s : Files) (fid : Nat) (f : File) (am' : List (Nat × List Nat))
    (hInv : Inv s) (hf : alookup fid s.files = some f) :
    Inv (if (rcDecr f.hash s.reference_counts).1 = 0 then
           Files.remove_blob
             { files := aerase fid s.files, pending_files := s.pending_files,
               reference_counts := (rcDecr f.hash s.reference_counts).2,
               accessors_map := am', blobs := s.blobs, bytes_used := s.bytes_used } f.hash
         else
           { files := aerase fid s.files, pending_files := s.pending_files,
             reference_counts := (rcDecr f.hash s.reference_counts).2,
             accessors_map := am', blobs := s.blobs, bytes_used := s.bytes_used }) := by
  have hold : 0 < rcGet f.hash s.reference_counts := by
    rw [hInv.rc_eq f.hash]
    exact countFilesWithHash_pos hf
  have hdec := rcDecr_fst f.hash s.reference_counts
  have hdecself := rcDecr_lookup_self f.hash s.reference_counts
  have hcount := countFilesWithHash_aerase hInv.files_nodup hf
  have hrc : ∀ h, rcGet h (rcDecr f.hash s.reference_counts).2 =
      countFilesWithHash h (aerase fid s.files) := by
    intro h
    by_cases hh : f.hash = h
    · subst hh
      have hc := hcount f.hash
      rw [if_pos rfl] at hc
      rw [hdecself, hInv.rc_eq f.hash]
      omega
    · rw [rcGet, rcDecr_lookup_ne hh, ← rcGet, hInv.rc_eq h]
      have hc := hcount h
      rw [if_neg hh] at hc
      omega
  have hdisj : ∀ k, (alookup k (aerase fid s.files)).isSome →
      alookup k s.pending_files = none := fun k hk =>
    hInv.keysets_disjoint k (isSome_of_aerase hk)
  by_cases hz : (rcDecr f.hash s.reference_counts).1 = 0
  · rw [if_pos hz]
    have hbs : (alookup f.hash s.blobs).isSome := (hInv.blob_iff f.hash).mpr hold
    obtain ⟨b, hb⟩ := Option.isSome_iff_exists.mp hbs
    simp only [Files.remove_blob, hb]
    refine ⟨nodupKeys_aerase fid hInv.files_nodup, nodupKeys_aerase f.hash hInv.blobs_nodup,
      hrc, ?_, ?_, hdisj⟩
    · intro h
      by_cases hh : f.hash = h
      · subst hh
        rw [alookup_aerase_self, hrc f.hash]
        have hc := hcount f.hash
        rw [if_pos rfl] at hc
        constructor
        · intro hcon; cases hcon
        · intro hcon
          rw [← hrc f.hash, hdecself] at hcon
          omega
      · rw [alookup_aerase_ne hh, rcGet, rcDecr_lookup_ne hh, ← rcGet]
        exact hInv.blob_iff h
    · have hsz := blobsSize_aerase hInv.blobs_nodup hb
      dsimp only
      rw [hInv.bytes_eq]
      omega
  · rw [if_neg hz]
    refine ⟨nodupKeys_aerase fid hInv.files_nodup, hInv.blobs_nodup, hrc, ?_,
      hInv.bytes_eq, hdisj⟩
    intro h
    by_cases hh : f.hash = h
    · subst hh
      rw [hrc f.hash]
      have hc := hcount f.hash
      rw [if_pos rfl] at hc
      have hiff := hInv.blob_iff f.hash
      constructor
      · intro _
        rw [← hrc f.hash, hdecself]
        omega
      · intro _
        exact hiff.mpr hold
    · dsimp only
      rw [rcGet, rcDecr_lookup_ne hh, ← rcGet]
      exact hInv.blob_iff h

theorem inv_remove (s : Files) (uploaded_by file_id : Nat) (hInv : Inv s) :
    Inv (s.remove uploaded_by file_id).2 := by
  unfold Files.remove
  cases hf : alookup file_id s.files with
  | none => exact hInv
  | some f =>
    by_cases hauth : f.uploaded_by = uploaded_by
    · simp only [hauth, if_pos rfl]
      by_cases hz : (rcDecr f.hash s.reference_counts).1 = 0
      · rw [if_pos hz]
        have := inv_delete_state s file_id f
          (f.accessors.foldl (fun m a => amUnlink a file_id m) s.accessors_map) hInv hf
        rw [if_pos hz] at this
        exact this
      · rw [if_neg hz]
        have := inv_delete_state s file_id f
          (f.accessors.foldl (fun m a => amUnlink a file_id m) s.accessors_map) hInv hf
        rw [if_neg hz] at this
        exact this
    · simp only [hauth, if_neg]
      exact hInv

theorem inv_remove_pending_file (s : Files) (file_id : Nat) (hInv : Inv s) :
    Inv (s.remove_pending_file file_id).2 :=
  inv_erase_pending s file_id hInv

theorem inv_raStep (a : Nat) (acc : List FileRemoved × Files) (file_id : Nat)
    (hInv : Inv acc.2) : Inv (raStep a acc file_id).2 := by
  cases hf : alookup file_id acc.2.files with
  | none => simp only [raStep, hf]; exact hInv
  | some f =>
    simp only [raStep, hf]
    by_cases hempty : (sremove a f.accessors).isEmpty = true
    · rw [if_pos hempty]
      dsimp only
      have hds := inv_delete_state acc.2 file_id f acc.2.accessors_map hInv hf
      by_cases hz : (rcDecr f.hash acc.2.reference_counts).1 = 0
      · rw [if_pos hz]
        rw [if_pos hz] at hds
        exact hds
      · rw [if_neg hz]
        rw [if_neg hz] at hds
        exact hds
    · rw [if_neg hempty]
      dsimp only
      refine ⟨nodupKeys_aupdate file_id _ hInv.files_nodup, hInv.blobs_nodup, ?_,
        hInv.blob_iff, hInv.bytes_eq, ?_⟩
      · intro h
        dsimp only
        rw [countFilesWithHash_aupdate ({ f with accessors := sremove a f.accessors })
          hInv.files_nodup hf rfl h]
        exact hInv.rc_eq h
      · intro k hk
        dsimp only at hk ⊢
        rw [alookup_aupdate_isSome] at hk
        exact hInv.keysets_disjoint k hk

theorem inv_raFold (a : Nat) (fids : List Nat) (acc : List FileRemoved × Files)
    (hInv : Inv acc.2) : Inv (fids.foldl (raStep a) acc).2 := by
  induction fids generalizing acc with
  | nil => exact hInv
  | cons j rest ih => exact ih (raStep a acc j) (inv_raStep a acc j hInv)

theorem inv_remove_accessor (s : Files) (a : Nat) (hInv : Inv s) :
    Inv (s.remove_accessor a).2 := by
  unfold Files.remove_accessor
  cases hm : alookup a s.accessors_map with
  | none => exact hInv
  | some fids =>
    exact inv_raFold a fids _
      ⟨hInv.files_nodup, hInv.blobs_nodup, hInv.rc_eq, hInv.blob_iff, hInv.bytes_eq,
       hInv.keysets_disjoint⟩

theorem inv_put_chunk (hashFn : List Nat → Nat) (maxBlobSize : Nat) (s : Files)
    (args : PutChunkArgs) (hInv : Inv s) :
    Inv (s.put_chunk hashFn maxBlobSize args).2 := by
  unfold Files.put_chunk
  by_cases h1 : maxBlobSize < args.total_size
  · rw [if_pos h1]; exact hInv
  · rw [if_neg h1]
    cases hfl : alookup args.file_id s.files with
    | some f => simp only [hfl, Option.isSome_some, if_pos]; exact hInv
    | none =>
      simp only [hfl, Option.isSome_none, Bool.false_eq_true, if_neg, if_false]
      cases hpd : alookup args.file_id s.pending_files with
      | none =>
        by_cases hcomp : (pendingFileFromArgs args).is_completed
        · simp only [hcomp, if_pos rfl]
          exact inv_complete_pending hashFn s args.file_id args.now _ _ hInv hfl hpd
        · simp only [hcomp, if_neg, Bool.false_eq_true, if_false]
          refine inv_set_pending s _ hInv ?_
          intro k hk
          by_cases hkf : k = args.file_id
          · rw [hkf] at hk
            rw [hfl] at hk
            cases hk
          · rw [alookup_ainsert_ne (fun he => hkf he.symm)]
            exact hInv.keysets_disjoint k hk
      | some pf0 =>
        dsimp only
        rcases hadd : pf0.add_chunk args.chunk_index args.bytes with ⟨res, pf1⟩
        have hupd : ∀ k, (alookup k s.files).isSome →
            alookup k (aupdate args.file_id pf1 s.pending_files) = none := by
          intro k hk
          by_cases hkf : k = args.file_id
          · rw [hkf] at hk
            rw [hfl] at hk
            cases hk
          · rw [alookup_aupdate_ne (fun he => hkf he.symm)]
            exact hInv.keysets_disjoint k hk
        cases res with
        | Success =>
          dsimp only
          by_cases hcomp : pf1.is_completed = true
          · rw [if_pos hcomp]
            refine inv_complete_pending hashFn _ args.file_id args.now _ _
              (inv_erase_pending s args.file_id hInv) hfl ?_
            exact alookup_aerase_self args.file_id s.pending_files
          · rw [if_neg hcomp]
            exact inv_set_pending s _ hInv hupd
        | ChunkAlreadyExists => exact hInv
        | ChunkIndexTooHigh => exact inv_set_pending s _ hInv hupd
        | ChunkSizeMismatch e a => exact inv_set_pending s _ hInv hupd

theorem inv_applyOp (hashFn : List Nat → Nat) (maxBlobSize : Nat) (s : Files) (op : Op)
    (hInv : Inv s) : Inv (applyOp hashFn maxBlobSize s op) := by
  cases op with
  | put args => exact inv_put_chunk hashFn maxBlobSize s args hInv
  | removeFile u fid => exact inv_remove s u fid hInv
  | removePending fid => exact inv_remove_pending_file s fid hInv
  | removeAccessor a => exact inv_remove_accessor s a hInv

theorem inv_empty : Inv Files.empty := by
  refine ⟨List.nodup_nil, List.nodup_nil, ?_, ?_, rfl, ?_⟩
  · intro h; rfl
  · intro h
    constructor
    · intro hcon; cases hcon
    · intro hcon; cases hcon
  · intro k hk; cases hk

/-- C2: every `Files` state reachable from the empty state by any sequence
of `put_chunk`, `remove`, `remove_pending_file` and `remove_accessor` calls
satisfies the invariants `Inv`: `ReferenceCounts[h]` equals the number of
completed files whose hash is `h`, a blob is stored for `h` iff that count
is positive, `bytes_used` is the sum of the lengths of all stored blobs,
and the key sets of `files` and `pending_files` are disjoint. -/
theorem reachable_state_invariants (hashFn : List Nat → Nat) (maxBlobSize : Nat)
    (ops : List Op) : Inv (applyOps hashFn maxBlobSize Files.empty ops) := by
  suffices hstep : ∀ (l : List Op) (s : Files), Inv s →
      Inv (applyOps hashFn maxBlobSize s l) from hstep ops Files.empty inv_empty
  intro l
  induction l with
  | nil => exact fun s h => h
  | cons op rest ih =>
    intro s hs
    exact ih (applyOp hashFn maxBlobSize s op) (inv_applyOp hashFn maxBlobSize s op hs)

/-! ## C8 — structural description of `remove_accessor` -/

theorem remove_blob_files (t : Files) (h : Nat) : (t.remove_blob h).files = t.files := by
  unfold Files.remove_blob
  cases alookup h t.blobs <;> rfl

theorem raStep_none (a : Nat) (acc : List FileRemoved × Files) (j : Nat)
    (h : alookup j acc.2.files = none) : raStep a acc j = acc := by
  simp [raStep, h]

theorem raStep_keep (a : Nat) (acc : List FileRemoved × Files) (j : Nat) (f : File)
    (h : alookup j acc.2.files = some f) (he : (sremove a f.accessors).isEmpty = false) :
    raStep a acc j =
      (acc.1, { acc.2 with
        files := aupdate j ({ f with accessors := sremove a f.accessors }) acc.2.files }) := by
  simp [raStep, h, he]

theorem raStep_delete (a : Nat) (acc : List FileRemoved × Files) (j : Nat) (f : File)
    (h : alookup j acc.2.files = some f) (he : (sremove a f.accessors).isEmpty = true) :
    (raStep a acc j).1 = acc.1 ++
      [{ file_id := j, uploaded_by := f.uploaded_by, hash := f.hash,
         blob_deleted := decide ((rcDecr f.hash acc.2.reference_counts).1 = 0) }] ∧
    (raStep a acc j).2.files = aerase j acc.2.files := by
  simp only [raStep, h, he, if_true]
  constructor
  · trivial
  · by_cases hz : (rcDecr f.hash acc.2.reference_counts).1 = 0
    · rw [if_pos hz, remove_blob_files]
    · rw [if_neg hz]

theorem raStep_files_ne (a : Nat) (acc : List FileRemoved × Files) (j k : Nat)
    (hk : k ≠ j) : alookup k (raStep a acc j).2.files = alookup k acc.2.files := by
  cases h : alookup j acc.2.files with
  | none => rw [raStep_none a acc j h]
  | some f =>
    cases he : (sremove a f.accessors).isEmpty with
    | false =>
      rw [raStep_keep a acc j f h he]
      exact alookup_aupdate_ne (fun heq => hk heq.symm) _ _
    | true =>
      rw [(raStep_delete a acc j f h he).2]
      exact alookup_aerase_ne (fun heq => hk heq.symm) _

theorem raFold_spec (a : Nat) (s : Files) (fids : List Nat) :
    ∀ acc : List FileRemoved × Files, fids.Nodup →
      (∀ j, j ∈ fids → alookup j acc.2.files = alookup j s.files) →
      (∀ k, k ∉ fids →
          alookup k (fids.foldl (raStep a) acc).2.files = alookup k acc.2.files) ∧
      (∀ j, j ∈ fids → ∀ f, alookup j s.files = some f →
        ((sremove a f.accessors).isEmpty = true →
          alookup j (fids.foldl (raStep a) acc).2.files = none ∧
          ∃ b, ({ file_id := j, uploaded_by := f.uploaded_by, hash := f.hash,
                  blob_deleted := b } : FileRemoved) ∈ (fids.foldl (raStep a) acc).1) ∧
        ((sremove a f.accessors).isEmpty = false →
          alookup j (fids.foldl (raStep a) acc).2.files =
            some { f with accessors := sremove a f.accessors })) ∧
      (∃ extra, (fids.foldl (raStep a) acc).1 = acc.1 ++ extra ∧
        extra.length = (fids.filter (fun j => deletedCond s j a)).length ∧
        (∀ fr, fr ∈ extra → fr.file_id ∈ fids ∧ deletedCond s fr.file_id a = true)) := by
  induction fids with
  | nil =>
    intro acc _ _
    refine ⟨fun k _ => rfl, fun j hj => absurd hj (List.not_mem_nil j), ⟨[], ?_, ?_, ?_⟩⟩
    · simp
    · simp
    · intro fr hfr
      exact absurd hfr (List.not_mem_nil fr)
  | cons j rest ih =>
    intro acc hnd hagree
    rw [List.nodup_cons] at hnd
    obtain ⟨hjrest, hndrest⟩ := hnd
    rw [List.foldl_cons]
    have hjs : alookup j acc.2.files = alookup j s.files :=
      hagree j (List.mem_cons_self j rest)
    have hagree1 : ∀ k, k ∈ rest →
        alookup k (raStep a acc j).2.files = alookup k s.files := by
      intro k hk
      rw [raStep_files_ne a acc j k (fun he => hjrest (he ▸ hk))]
      exact hagree k (List.mem_cons_of_mem j hk)
    obtain ⟨ihframe, ihfile, extra', ihres, ihlen, ihmem⟩ := ih (raStep a acc j) hndrest hagree1
    cases hsf : alookup j s.files with
    | none =>
      have haccj : alookup j acc.2.files = none := hjs.trans hsf
      rw [raStep_none a acc j haccj] at ihframe ihfile ihres ⊢
      have hcond : deletedCond s j a = false := by
        unfold deletedCond
        rw [hsf]
      refine ⟨?_, ?_, extra', ihres, ?_, ?_⟩
      · intro k hk
        exact ihframe k (fun hm => hk (List.mem_cons_of_mem j hm))
      · intro j' hj' f hf
        rcases List.mem_cons.mp hj' with hEq | hmem
        · subst hEq
          rw [hsf] at hf
          cases hf
        · exact ihfile j' hmem f hf
      · rw [List.filter_cons, hcond]
        simpa using ihlen
      · intro fr hfr
        obtain ⟨hm, hc⟩ := ihmem fr hfr
        exact ⟨List.mem_cons_of_mem j hm, hc⟩
    | some f =>
      have haccj : alookup j acc.2.files = some f := hjs.trans hsf
      have hcond : deletedCond s j a = (sremove a f.accessors).isEmpty := by
        unfold deletedCond
        rw [hsf]
      cases hemp : (sremove a f.accessors).isEmpty with
      | true =>
        obtain ⟨hres1, hfiles1⟩ := raStep_delete a acc j f haccj hemp
        refine ⟨?_, ?_, ?_⟩
        · intro k hk
          rw [ihframe k (fun hm => hk (List.mem_cons_of_mem j hm)), hfiles1]
          exact alookup_aerase_ne
            (fun heq => hk (by rw [← heq]; exact List.mem_cons_self j rest)) _
        · intro j' hj' f' hf'
          rcases List.mem_cons.mp hj' with hEq | hmem
          · subst hEq
            have hff : f' = f := (Option.some.inj (hsf.symm.trans hf')).symm
            subst hff
            constructor
            · intro _
              constructor
              · rw [ihframe j' hjrest, hfiles1]
                exact alookup_aerase_self j' acc.2.files
              · refine ⟨decide ((rcDecr f'.hash acc.2.reference_counts).1 = 0), ?_⟩
                rw [ihres, hres1]
                exact List.mem_append_left _ (List.mem_append_right _ (List.mem_singleton.mpr rfl))
            · intro hcon
              rw [hemp] at hcon
              cases hcon
          · exact ihfile j' hmem f' hf'
        · refine ⟨{ file_id := j, uploaded_by := f.uploaded_by, hash := f.hash, blob_deleted := decide ((rcDecr f.hash acc.2.reference_counts).1 = 0) } :: extra', ?_, ?_, ?_⟩
          · rw [ihres, hres1, List.append_assoc, List.singleton_append]
          · rw [List.filter_cons, hcond, hemp, List.length_cons, ihlen]
            simp
          · intro fr hfr
            rcases List.mem_cons.mp hfr with hEq | hmem
            · subst hEq
              refine ⟨List.mem_cons_self j rest, ?_⟩
              rw [hcond, hemp]
            · obtain ⟨hm, hc⟩ := ihmem fr hmem
              exact ⟨List.mem_cons_of_mem j hm, hc⟩
      | false =>
        have hkeep := raStep_keep a acc j f haccj hemp
        refine ⟨?_, ?_, extra', ?_, ?_, ?_⟩
        · intro k hk
          rw [ihframe k (fun hm => hk (List.mem_cons_of_mem j hm)), hkeep]
          exact alookup_aupdate_ne
            (fun heq => hk (by rw [← heq]; exact List.mem_cons_self j rest)) _ _
        · intro j' hj' f' hf'
          rcases List.mem_cons.mp hj' with hEq | hmem
          · subst hEq
            have hff : f' = f := (Option.some.inj (hsf.symm.trans hf')).symm
            subst hff
            constructor
            · intro hcon
              rw [hemp] at hcon
              cases hcon
            · intro _
              rw [ihframe j' hjrest, hkeep]
              exact alookup_aupdate_self (by rw [haccj]; rfl) _
          · exact ihfile j' hmem f' hf'
        · rw [ihres, hkeep]
        · rw [List.filter_cons, hcond, hemp]
          simpa using ihlen
        · intro fr hfr
          obtain ⟨hm, hc⟩ := ihmem fr hfr
          exact ⟨List.mem_cons_of_mem j hm, hc⟩

/-- C8: `remove_accessor a` removes `a` from the accessor set of every file
listed under `a` in the accessors index (files not listed keep their entry),
deletes exactly those listed files whose accessor set becomes empty, returns
one `FileRemoved` per deleted file (and nothing else), and — via the
preserved invariants — keeps the reference count of every hash equal to the
number of surviving files bearing it, storing a blob exactly while that
count is positive. -/
theorem remove_accessor_cascade (s : Files) (a : Nat) (hInv : Inv s)
    (hLnd : ((alookup a s.accessors_map).getD []).Nodup) :
    (∀ k, k ∉ (alookup a s.accessors_map).getD [] →
        alookup k (s.remove_accessor a).2.files = alookup k s.files) ∧
    (∀ j, j ∈ (alookup a s.accessors_map).getD [] → ∀ f, alookup j s.files = some f →
      ((sremove a f.accessors).isEmpty = true →
        alookup j (s.remove_accessor a).2.files = none ∧
        ∃ b, ({ file_id := j, uploaded_by := f.uploaded_by, hash := f.hash,
                blob_deleted := b } : FileRemoved) ∈ (s.remove_accessor a).1) ∧
      ((sremove a f.accessors).isEmpty = false →
        alookup j (s.remove_accessor a).2.files =
          some { f with accessors := sremove a f.accessors })) ∧
    (s.remove_accessor a).1.length =
      (((alookup a s.accessors_map).getD []).filter (fun j => deletedCond s j a)).length ∧
    (∀ fr, fr ∈ (s.remove_accessor a).1 →
      fr.file_id ∈ (alookup a s.accessors_map).getD [] ∧ deletedCond s fr.file_id a = true) ∧
    (∀ h, rcGet h (s.remove_accessor a).2.reference_counts =
      countFilesWithHash h (s.remove_accessor a).2.files) ∧
    (∀ h, (alookup h (s.remove_accessor a).2.blobs).isSome ↔
      0 < rcGet h (s.remove_accessor a).2.reference_counts) := by
  have hInv' := inv_remove_accessor s a hInv
  refine ?_
  cases hm : alookup a s.accessors_map with
  | none =>
    simp only [Files.remove_accessor, hm] at hInv' ⊢
    exact ⟨fun k _ => trivial, fun j hj => absurd hj (List.not_mem_nil j), by trivial,
      fun fr hfr => absurd hfr (List.not_mem_nil fr), hInv'.rc_eq, hInv'.blob_iff⟩
  | some fids =>
    rw [hm] at hLnd
    simp only [Option.getD_some] at hLnd
    have hfold := raFold_spec a s fids
      ([], { s with accessors_map := aerase a s.accessors_map }) hLnd
      (fun j _ => rfl)
    obtain ⟨hframe, hfile, extra, hres, hlen, hmem⟩ := hfold
    dsimp only at hframe hfile hres hlen hmem
    simp only [Files.remove_accessor, hm, Option.getD_some] at hInv' ⊢
    rw [List.nil_append] at hres
    exact ⟨hframe, hfile, by rw [hres]; exact hlen, fun fr hfr => hmem fr (hres ▸ hfr),
      hInv'.rc_eq, hInv'.blob_iff⟩

theorem remove_accessor_cascade_witness :
    alookup 1 (c8State.remove_accessor 10).2.files =
      some { c8File1 with accessors := [20] } ∧
    alookup 2 (c8State.remove_accessor 10).2.files = none ∧
    (c8State.remove_accessor 10).1.length = 1 := by
  have hInv : Inv c8State := by
    refine ⟨?_, ?_, ?_, ?_, rfl, fun k _ => rfl⟩
    · show (c8State.files.map Prod.fst).Nodup
      decide
    · show (c8State.blobs.map Prod.fst).Nodup
      decide
    · intro h
      by_cases h7 : 7 = h
      · subst h7; decide
      · simp [c8State, rcGet, alookup, countFilesWithHash, c8File1, c8File2,
          List.filter_cons, h7]
    · intro h
      by_cases h7 : 7 = h
      · subst h7; decide
      · simp [c8State, rcGet, alookup, h7]
  have h := remove_accessor_cascade c8State 10 hInv (by decide)
  refine ⟨?_, ?_, ?_⟩
  · have h1 := ((h.2.1 1 (by decide) c8File1 rfl).2 (by decide))
    simpa using h1
  · exact ((h.2.1 2 (by decide) c8File2 rfl).1 (by decide)).1
  · rw [h.2.2.1]
    decide

/-! ## C9 — duplicate `add_user` -/

/-- C9: if `add_user` is called with a `user_id` already present in the users
map, it returns `UserAlreadyExists` and the index state is unchanged: the
existing record keeps its `byte_limit` and `bytes_used`, and no `UserAdded`
sync event is enqueued. -/
theorem add_user_existing_unchanged (d : IndexData) (user_id byte_limit : Nat)
    (r : UserRecord) (h : alookup user_id d.users = some r) :
    add_user_impl d user_id byte_limit = (AddUserResponse.UserAlreadyExists, d) := by
  simp [add_user_impl, h]

theorem add_user_existing_unchanged_witness :
    add_user_impl ⟨[(3, ⟨500, 123⟩)], [], []⟩ 3 999 =
      (AddUserResponse.UserAlreadyExists, ⟨[(3, ⟨500, 123⟩)], [], []⟩) :=
  add_user_existing_unchanged ⟨[(3, ⟨500, 123⟩)], [], []⟩ 3 999 ⟨500, 123⟩ rfl

/-! ## C10 — `remove_blob_reference` frame when no size resolves -/

/-- C10: `Data::remove_blob_reference` leaves every user's `bytes_used`
unchanged whenever the event's `blob_hash` resolves to no stored size: when
`blob_deleted` is false and the hash has no `BlobBuckets` entry, or when
`blob_deleted` is true and there is no entry to remove for that bucket. -/
theorem remove_blob_reference_no_size_frame (d : IndexData) (bucket : Nat)
    (ev : BlobReferenceRemoved)
    (h : (if ev.blob_deleted then (bbRemove ev.blob_hash bucket d.blob_buckets).1
          else (bbGet ev.blob_hash d.blob_buckets).map (fun r => r.size)) = none) :
    (d.remove_blob_reference bucket ev).users = d.users := by
  cases hd : ev.blob_deleted with
  | true =>
    rw [hd] at h
    simp only [if_true] at h
    simp [IndexData.remove_blob_reference, hd, h]
  | false =>
    rw [hd] at h
    simp only [Bool.false_eq_true, if_false] at h
    simp [IndexData.remove_blob_reference, hd, h]

theorem remove_blob_reference_no_size_frame_witness :
    (IndexData.remove_blob_reference ⟨[(1, ⟨100, 40⟩)], [(7, ⟨40, 5⟩)], []⟩ 6
        ⟨1, 7, true⟩).users = [(1, ⟨100, 40⟩)] :=
  remove_blob_reference_no_size_frame ⟨[(1, ⟨100, 40⟩)], [(7, ⟨40, 5⟩)], []⟩ 6
    ⟨1, 7, true⟩ (by decide)

/-! ## C6 — `add_blob_reference` is not idempotent -/

/-- C6 counterexample: delivering the same `BlobReferenceAdded` twice does
not leave `bytes_used` as if it had been delivered once — the user is
charged 10 bytes per delivery (20 after two deliveries, 10 after one). -/
theorem add_blob_reference_double_charge_cex :
    alookup 1 ((IndexData.add_blob_reference
        (IndexData.add_blob_reference ⟨[(1, ⟨100, 0⟩)], [], []⟩ 42 ⟨1, 5, 7, 10⟩).2
        42 ⟨1, 5, 7, 10⟩).2).users = some ⟨100, 20⟩ ∧
    alookup 1 ((IndexData.add_blob_reference ⟨[(1, ⟨100, 0⟩)], [], []⟩ 42
        ⟨1, 5, 7, 10⟩).2).users = some ⟨100, 10⟩ := by
  constructor <;> rfl

/-- C6 amended: `Data::add_blob_reference` performs no duplicate check, so
delivering the same `BlobReferenceAdded` twice (both deliveries passing the
allowance check) charges the user twice: `bytes_used` grows by
`blob_size` on each delivery. -/
theorem add_blob_reference_users_step (d : IndexData) (bucket : Nat)
    (ev : BlobReferenceAdded) (u : UserRecord)
    (hu : alookup ev.uploaded_by d.users = some u)
    (hq : ¬ u.byte_limit < u.bytes_used + ev.blob_size) :
    (IndexData.add_blob_reference d bucket ev).2.users =
      aupdate ev.uploaded_by ({ u with bytes_used := u.bytes_used + ev.blob_size }) d.users := by
  simp [IndexData.add_blob_reference, hu, hq]

theorem add_blob_reference_double_charge (d : IndexData) (bucket : Nat)
    (ev : BlobReferenceAdded) (u : UserRecord)
    (hu : alookup ev.uploaded_by d.users = some u)
    (hq : u.bytes_used + ev.blob_size + ev.blob_size ≤ u.byte_limit) :
    alookup ev.uploaded_by
        ((IndexData.add_blob_reference (IndexData.add_blob_reference d bucket ev).2
          bucket ev).2).users =
      some { u with bytes_used := u.bytes_used + ev.blob_size + ev.blob_size } := by
  have h1 : ¬ u.byte_limit < u.bytes_used + ev.blob_size := by omega
  set d1 := (IndexData.add_blob_reference d bucket ev).2 with hd1
  have hu2 : alookup ev.uploaded_by d1.users =
      some { u with bytes_used := u.bytes_used + ev.blob_size } := by
    rw [hd1, add_blob_reference_users_step d bucket ev u hu h1]
    exact alookup_aupdate_self (by simp [hu]) _
  have h2 : ¬ u.byte_limit <
      u.bytes_used + ev.blob_size + ev.blob_size := by omega
  rw [add_blob_reference_users_step d1 bucket ev
        ({ u with bytes_used := u.bytes_used + ev.blob_size }) hu2 (by simpa using h2)]
  simpa using alookup_aupdate_self (by simp [hu2]) _

theorem add_blob_reference_double_charge_witness :
    alookup 1 ((IndexData.add_blob_reference
        (IndexData.add_blob_reference ⟨[(1, ⟨100, 0⟩)], [], []⟩ 42 ⟨1, 5, 7, 10⟩).2
        42 ⟨1, 5, 7, 10⟩).2).users = some ⟨100, 20⟩ :=
  add_blob_reference_double_charge ⟨[(1, ⟨100, 0⟩)], [], []⟩ 42 ⟨1, 5, 7, 10⟩
    ⟨100, 0⟩ rfl (by decide)

/-! ## C7 — `allocated_bucket` quota gating -/

/-- C7: for an unknown caller `allocated_bucket_impl` returns `UserNotFound`;
for a known user, with `after` the projected usage (unchanged if the user
already owns the hash, else increased by `file_size`), the result is
`AllowanceExceeded` exactly when `after` exceeds `byte_limit`; and every
`Success` response carries `chunk_size = DEFAULT_CHUNK_SIZE_BYTES = 1 <<< 19`
and the bucket already owning the hash when one exists. -/
theorem allocated_bucket_quota_gating (users : List (Nat × UserRecord))
    (user_owns_blob : Nat → Nat → Bool) (bucket_of allocate : Nat → Option Nat)
    (caller file_hash file_size : Nat) :
    (alookup caller users = none →
      allocated_bucket_impl users user_owns_blob bucket_of allocate caller file_hash file_size =
        AllocatedBucketResponse.UserNotFound) ∧
    (∀ u, alookup caller users = some u →
      let after := if user_owns_blob caller file_hash then u.bytes_used
                   else u.bytes_used + file_size
      ((u.byte_limit < after →
          allocated_bucket_impl users user_owns_blob bucket_of allocate caller file_hash file_size =
            AllocatedBucketResponse.AllowanceExceeded
              ⟨u.byte_limit, u.bytes_used, after, after⟩) ∧
       (∀ pa, allocated_bucket_impl users user_owns_blob bucket_of allocate caller file_hash
                file_size = AllocatedBucketResponse.AllowanceExceeded pa →
          u.byte_limit < after) ∧
       (∀ cid cs pa, allocated_bucket_impl users user_owns_blob bucket_of allocate caller
                file_hash file_size = AllocatedBucketResponse.Success cid cs pa →
          cs = DEFAULT_CHUNK_SIZE_BYTES ∧ ∀ b, bucket_of file_hash = some b → cid = b))) := by
  constructor
  · intro h
    simp [allocated_bucket_impl, h]
  · intro u hu
    constructor
    · intro hover
      simp [allocated_bucket_impl, hu, hover]
    constructor
    · intro pa hres
      by_contra hnot
      rw [allocated_bucket_impl, hu] at hres
      simp only [hnot, if_false] at hres
      cases hb : bucket_of file_hash with
      | some b => simp [hb] at hres
      | none =>
        cases ha : allocate file_hash with
        | some b => simp [hb, ha] at hres
        | none => simp [hb, ha] at hres
    · intro cid cs pa hres
      rw [allocated_bucket_impl, hu] at hres
      by_cases hover : u.byte_limit <
          (if user_owns_blob caller file_hash then u.bytes_used else u.bytes_used + file_size)
      · simp [hover] at hres
      · simp only [hover, if_false] at hres
        cases hb : bucket_of file_hash with
        | some b =>
          rw [hb] at hres
          simp only [AllocatedBucketResponse.Success.injEq] at hres
          refine ⟨hres.2.1.symm, fun b' hb' => ?_⟩
          have hbb : b = b' := Option.some.inj hb'
          rw [← hbb]
          exact hres.1.symm
        | none =>
          rw [hb] at hres
          refine ⟨?_, fun b' hb' => Option.noConfusion hb'⟩
          cases ha : allocate file_hash with
          | some b =>
            rw [ha] at hres
            simp only [AllocatedBucketResponse.Success.injEq] at hres
            exact hres.2.1.symm
          | none => rw [ha] at hres; cases hres

theorem allocated_bucket_quota_gating_witness :
    allocated_bucket_impl [(1, ⟨100, 90⟩)] (fun _ _ => false) (fun _ => some 7)
        (fun _ => none) 1 5 20 =
      AllocatedBucketResponse.AllowanceExceeded ⟨100, 90, 110, 110⟩ :=
  ((allocated_bucket_quota_gating [(1, ⟨100, 90⟩)] (fun _ _ => false) (fun _ => some 7)
      (fun _ => none) 1 5 20).2 ⟨100, 90⟩ rfl).1 (by decide)

/-! ## C3/C4/C5 — chunk validation on `put_chunk` -/

/-- C3: on the path that creates the `PendingFile`,
`From<PutChunkArgs> for PendingFile` discards the `add_chunk` result, so a
first chunk whose length (1) differs from the expected size (2) is *not*
rejected with `ChunkSizeMismatch`: `put_chunk` returns `Success` while the
chunk is marked received (`remaining_chunks = [1]`) with its bytes left
zeroed. -/
theorem put_chunk_first_chunk_size_unchecked :
    (Files.put_chunk (fun _ => 0) 1000 Files.empty ⟨1, 1, 99, "", [], 0, 2, 3, [7], 0⟩).1 =
      PutChunkResult.Success false (some ⟨1, 1, 99, 3⟩) ∧
    (alookup 1 (Files.put_chunk (fun _ => 0) 1000 Files.empty
        ⟨1, 1, 99, "", [], 0, 2, 3, [7], 0⟩).2.pending_files).map
      (fun pf => (pf.remaining_chunks, pf.bytes)) = some ([1], [0, 0, 0]) :=
  ⟨rfl, rfl⟩

/-- C4 counterexample: on an existing pending file (chunk_count = 2), a
`put_chunk` with `chunk_index = 5 ≥ 2` returns `ChunkAlreadyExists`, not
`ChunkIndexTooHigh`: `remaining_chunks.remove` is checked first and a
too-high index is never a member. -/
theorem put_chunk_index_too_high_cex :
    Files.put_chunk (fun _ => 0) 1000 stateAfterChunk0 ⟨1, 1, 99, "", [], 5, 2, 3, [1, 2], 0⟩ =
      (PutChunkResult.ChunkAlreadyExists, stateAfterChunk0) ∧
    PutChunkResult.ChunkAlreadyExists ≠ PutChunkResult.ChunkIndexTooHigh :=
  ⟨rfl, by decide⟩

/-- C4 amended: for every `put_chunk` call on an existing `PendingFile`
whose `chunk_index` is at least `chunk_count` (so, by the well-formedness of
`remaining_chunks`, not a remaining chunk), the result is
`ChunkAlreadyExists` — not `ChunkIndexTooHigh` — and the state, in
particular the pending file, is unchanged. -/
theorem put_chunk_index_too_high_already_exists (hashFn : List Nat → Nat)
    (maxBlobSize : Nat) (s : Files) (args : PutChunkArgs) (pf : PendingFile)
    (hmax : ¬ maxBlobSize < args.total_size)
    (hfiles : alookup args.file_id s.files = none)
    (hpend : alookup args.file_id s.pending_files = some pf)
    (hwf : ∀ i ∈ pf.remaining_chunks, i < pf.chunk_count)
    (hidx : pf.chunk_count ≤ args.chunk_index) :
    Files.put_chunk hashFn maxBlobSize s args = (PutChunkResult.ChunkAlreadyExists, s) := by
  have hnotmem : args.chunk_index ∉ pf.remaining_chunks := fun hmem =>
    absurd (hwf _ hmem) (by omega)
  simp [Files.put_chunk, hmax, hfiles, hpend, PendingFile.add_chunk, hnotmem]

theorem put_chunk_index_too_high_already_exists_witness :
    Files.put_chunk (fun _ => 0) 1000 stateAfterChunk0 ⟨1, 1, 99, "", [], 5, 2, 3, [1, 2], 0⟩ =
      (PutChunkResult.ChunkAlreadyExists, stateAfterChunk0) :=
  put_chunk_index_too_high_already_exists (fun _ => 0) 1000 stateAfterChunk0
    ⟨1, 1, 99, "", [], 5, 2, 3, [1, 2], 0⟩ ⟨1, 0, 99, "", [], 2, 3, [1], [1, 2, 0]⟩
    (by decide) rfl rfl (by decide) (by decide)

/-- C5: a `ChunkSizeMismatch` on an existing pending file is not atomic.
Chunk 1 (expected size 1) submitted with 2 bytes fails with
`ChunkSizeMismatch 1 2`, but `chunk_index = 1` has already been removed from
`remaining_chunks` (now `[]`), so retrying chunk 1 with the correct 1-byte
payload fails with `ChunkAlreadyExists` instead of succeeding. -/
theorem put_chunk_size_mismatch_not_atomic :
    (Files.put_chunk (fun _ => 0) 1000 stateAfterChunk0
        ⟨1, 1, 99, "", [], 1, 2, 3, [9, 9], 0⟩).1 = PutChunkResult.ChunkSizeMismatch 1 2 ∧
    (alookup 1 (Files.put_chunk (fun _ => 0) 1000 stateAfterChunk0
        ⟨1, 1, 99, "", [], 1, 2, 3, [9, 9], 0⟩).2.pending_files).map
      (fun pf => pf.remaining_chunks) = some [] ∧
    (Files.put_chunk (fun _ => 0) 1000
        (Files.put_chunk (fun _ => 0) 1000 stateAfterChunk0
          ⟨1, 1, 99, "", [], 1, 2, 3, [9, 9], 0⟩).2
        ⟨1, 1, 99, "", [], 1, 2, 3, [9], 0⟩).1 = PutChunkResult.ChunkAlreadyExists :=
  ⟨rfl, rfl, rfl⟩

theorem upload_roundtrip_witness :
    Files.blob_bytes (runUpload (fun l => l.foldl (· + ·) 0) 100 Files.empty
        ([1, 0].map (mkUploadArgs 1 5
          ((fun l => l.foldl (· + ·) 0)
            (concatUpTo (fun i => if i = 0 then [1, 2] else [3]) (calc_chunk_count 2 3)))
          "" [] 2 3 0 (fun i => if i = 0 then [1, 2] else [3])))).2
      ((fun l => l.foldl (· + ·) 0)
        (concatUpTo (fun i => if i = 0 then [1, 2] else [3]) (calc_chunk_count 2 3))) =
      some (concatUpTo (fun i => if i = 0 then [1, 2] else [3]) (calc_chunk_count 2 3)) :=
  (upload_roundtrip (fun l => l.foldl (· + ·) 0) 100 2 3
    (fun i => if i = 0 then [1, 2] else [3]) 1 5 0 "" [] Files.empty [1, 0]
    (by decide) (by decide) (by decide) (by decide) (by decide)
    rfl rfl rfl).2.2

end OpenStorage
